import Mathlib

/-!
A verification development for the pybind11 binding generator
`etc/generate_pybind11.py` of the libsemigroups repository.

The generator reads per-scope doxygen XML files, classifies each member of a
requested scope, and emits pybind11 binding statements together with rendered
reStructuredText documentation.  This file gives a shallow embedding of the
relevant functions of that script and proves properties of them.

Modelling conventions:
* Python strings are `String` (a wrapper around `List Char`); the regular
  expressions used by the script are modelled by explicit character scans
  with the same left-to-right, non-overlapping semantics; `\w` / `.lower()` /
  `.strip()` / `.isupper()` are modelled at ASCII level, which covers every
  string the script manipulates.
* Python exceptions (KeyError, StopIteration, IndexError, AttributeError,
  AssertionError, TypeError) are modelled by `Except PyErr`.
* Tree-walking functions receive a fuel argument (`Nat`) so that every
  definition is structurally recursive and kernel-computable; running out of
  fuel is the distinguished error `PyErr.fuelOut`.
* Messages written to stderr via the script's `__error` helper are modelled
  as structured `Diag` values.
-/

namespace GenPybind

deriving instance DecidableEq for Except

/-- Python exceptions (and fuel exhaustion of the bounded tree walks). -/
inductive PyErr where
  | fuelOut
  | keyErr
  | stopIter
  | idxErr
  | attrErr
  | assertErr
  | typeErr
  deriving DecidableEq, Repr

/-- Diagnostics written to the error stream (the script's `__error`). -/
inductive Diag where
  | missingSchema (thing : String)
  deriving DecidableEq, Repr

/-! ## Character and string utilities mirroring the Python primitives -/

/-- The whitespace characters stripped by Python `str.strip()` (ASCII part). -/
def isPyWs (c : Char) : Bool :=
  c = ' ' ∨ c = '\t' ∨ c = '\n' ∨ c = '\r' ∨ c = '\x0b' ∨ c = '\x0c'

/-- A word character in the sense of the regex `\b` boundary (ASCII `\w`). -/
def isWordChar (c : Char) : Bool :=
  c.isAlpha ∨ c.isDigit ∨ c = '_'

/-- Remove trailing Python whitespace from a character list. -/
def pyStripRight : List Char → List Char
  | [] => []
  | c :: rest =>
      let r := pyStripRight rest
      if r = [] ∧ isPyWs c then [] else c :: r

/-- Model of `str.strip()` on character lists: drop leading and trailing whitespace. -/
def pyStripL (s : List Char) : List Char :=
  pyStripRight (s.dropWhile isPyWs)

/-- Model of `str.strip()` on strings. -/
def pyStrip (s : String) : String :=
  ⟨pyStripL s.data⟩

/-- Substring test on character lists (Python `in` for strings). -/
def subL (p : List Char) : List Char → Bool
  | [] => p.isEmpty
  | c :: rest => p.isPrefixOf (c :: rest) || subL p rest

/-- Substring test on strings (Python `needle in haystack`). -/
def subStr (needle haystack : String) : Bool :=
  subL needle.data haystack.data

/-- Model of `str.startswith` via the underlying character lists. -/
def strStarts (p s : String) : Bool :=
  p.data.isPrefixOf s.data

/-- Model of `str.endswith` via the underlying character lists. -/
def strEnds (p s : String) : Bool :=
  p.data.isSuffixOf s.data

/-- Model of `", ".join` of a list of strings (also used for `","`-joins). -/
def joinWith (sep : String) : List String → String
  | [] => ""
  | [x] => x
  | x :: y :: rest => x ++ sep ++ joinWith sep (y :: rest)

/-! ## `translate_cpp_to_py`

The script's type translator, line by line:
1. `re.sub(r"\bconst\b", "", type_)` — remove each standalone `const` token
   (word boundaries on both sides, matches located in the original string,
   scanning left to right);
2. `re.sub(r"\&", "", type_)` — remove every ampersand;
3. special-case `std::vector<uint8_t>`;
4. `re.sub(r"<.*?>", "", type_)` — remove each non-greedy template-argument
   group (`.` does not match a newline);
5. `strip()` and a chain of exact-match and substring rules.
-/

/-- One left-to-right scan removing each `\bconst\b` match.  The boolean
records whether the character preceding the scan position (in the original
string) is a word character, which is exactly the information `\b` needs. -/
def rcAux : Bool → List Char → List Char
  | _, [] => []
  | prevW, 'c' :: 'o' :: 'n' :: 's' :: 't' :: rest =>
      if !prevW && (match rest with | [] => true | d :: _ => !isWordChar d) then
        rcAux true rest
      else
        'c' :: rcAux true ('o' :: 'n' :: 's' :: 't' :: rest)
  | _, c :: rest => c :: rcAux (isWordChar c) rest

/-- Model of `re.sub(r"\bconst\b", "", s)`. -/
def stripConstTokens (s : String) : String :=
  ⟨rcAux false s.data⟩

/-- Model of `re.sub(r"\&", "", s)`. -/
def stripAmp (s : String) : String :=
  ⟨s.data.filter (fun c => c ≠ '&')⟩

/-- State machine for `re.sub(r"<.*?>", "", s)`.  `none` is the normal state;
`some buf` means a `<` has been read and `buf` (reversed) holds the characters
seen since.  A `>` before a newline closes the match and drops it; a newline
or the end of the string aborts the match, in which case the regex engine
keeps every buffered character (none of them can start a match of its own,
because the same newline/end blocks any later `>`). -/
def stAux : Option (List Char) → List Char → List Char
  | none, [] => []
  | none, c :: rest =>
      if c = '<' then stAux (some []) rest else c :: stAux none rest
  | some buf, [] => '<' :: buf.reverse
  | some buf, c :: rest =>
      if c = '>' then stAux none rest
      else if c = '\n' then '<' :: buf.reverse ++ '\n' :: stAux none rest
      else stAux (some (c :: buf)) rest

/-- Model of `re.sub(r"<.*?>", "", s)`. -/
def stripTemplates (s : String) : String :=
  ⟨stAux none s.data⟩

/-- Stage of `translate_cpp_to_py` after the `const` and `&` removals. -/
def transT2 (x : String) : String :=
  stripAmp (stripConstTokens x)

/-- Stage of `translate_cpp_to_py` after template stripping and `strip()`. -/
def transT4 (x : String) : String :=
  pyStrip (stripTemplates (transT2 x))

/-- Model of `translate_cpp_to_py` from the script (lines 446–476). -/
def translate_cpp_to_py (type0 : String) : String :=
  let t2 := transT2 type0
  if t2 = "std::vector<uint8_t>" then "list[int]" else
  let t4 := transT4 type0
  if t4 = "std::out_of_range" then "IndexError"
  else if t4 = "std::bad_alloc" then "MemoryError"
  else if t4 = "std::length_error" then "ValueError"
  else if t4 = "LibsemigroupsException" then "LibsemigroupsError"
  else if t4 = "size_t" ∨ t4 = "uint32_t" ∨ t4 = "size_type" ∨ t4 = "uint64_t" then "int"
  else if t4 = "this" ∨ t4 = "*this" then "self"
  else if t4 = "true" then "True"
  else if t4 = "false" then "False"
  else if t4 = "void" then "None"
  else if t4 = "std::vector" then "list"
  else if subStr "iterator" t4 then "Iterator"
  else t4

/-- From this position there is no `>` before a newline: this is exactly the
condition under which the non-greedy `<.*?>` match starting just before this
position fails. -/
def noClose : List Char → Bool
  | [] => true
  | c :: rest =>
      if c = '>' then false
      else if c = '\n' then true
      else noClose rest

/-- Every `<` in the list is unclosable: on such lists the template pass is
the identity. -/
def pnc : List Char → Bool
  | [] => true
  | c :: rest => (if c = '<' then noClose rest else true) && pnc rest

/-- Lists free of `>` and newline characters. -/
def noGTNL (l : List Char) : Prop :=
  ∀ c ∈ l, c ≠ '>' ∧ c ≠ '\n'

/-! ## The doxygen XML tree model

`get_xml` parses each schema file with BeautifulSoup; the functions below
model the parsed tree.  A node is either a raw text run (`NavigableString`)
or an element with tag name, attributes and children. -/

/-- A parsed XML node. -/
inductive Node where
  | txt (s : String)
  | elem (name : String) (attrs : List (String × String)) (children : List Node)

/-- Attribute lookup (`tag.attrs.get(key)`). -/
def attrGet : List (String × String) → String → Option String
  | [], _ => none
  | (a, v) :: rest, k => if a = k then some v else attrGet rest k

/-- Does the node have the given tag name?  A text run has name `None`. -/
def isNamed (nm : String) : Node → Bool
  | .txt _ => false
  | .elem n _ _ => n = nm

/-- bs4 `.text`: all descendant text runs concatenated in document order.
The worklist recursion is driven by fuel so that the definition is
kernel-computable; `none` means the fuel ran out. -/
def textW : Nat → List Node → Option String
  | 0, _ => none
  | _ + 1, [] => some ""
  | n + 1, Node.txt s :: rest => (textW n rest).map (fun r => s ++ r)
  | n + 1, Node.elem _ _ cs :: rest => textW n (cs ++ rest)

/-- bs4 `find_all(nm)` starting from a worklist: every descendant element
named `nm`, in document order. -/
def findAllW (nm : String) : Nat → List Node → Option (List Node)
  | 0, _ => none
  | _ + 1, [] => some []
  | n + 1, Node.txt _ :: rest => findAllW nm n rest
  | n + 1, Node.elem en at0 cs :: rest =>
      (findAllW nm n (cs ++ rest)).map
        (fun r => if en = nm then Node.elem en at0 cs :: r else r)

/-- The Python result type: a value or a raised exception. -/
abbrev PyRes (α : Type) := Except PyErr α

/-- Fuel exhaustion of the bounded tree walks, lifted into `PyRes`. -/
def liftOpt {α : Type} : Option α → PyRes α
  | some a => .ok a
  | none => .error .fuelOut

/-- bs4 `x.text` on a single node. -/
def textOf (fuel : Nat) (x : Node) : PyRes String :=
  liftOpt (textW fuel [x])

/-- bs4 `x.find(nm)`: the first descendant element named `nm`, if any. -/
def findDesc (fuel : Nat) (nm : String) (x : Node) : PyRes (Option Node) :=
  match x with
  | .txt _ => .ok none
  | .elem _ _ cs => (liftOpt (findAllW nm fuel cs)).map List.head?

/-- bs4 `x.find_all(nm)` on a single node (descendants only). -/
def findAllOf (fuel : Nat) (nm : String) (x : Node) : PyRes (List Node) :=
  match x with
  | .txt _ => .ok []
  | .elem _ _ cs => liftOpt (findAllW nm fuel cs)

/-- The suffix after the last occurrence of `::` (`s[s.rfind("::") + 2:]`),
or `none` when there is no occurrence. -/
def afterColons : List Char → Option (List Char)
  | [] => none
  | c :: rest =>
      match afterColons rest with
      | some r => some r
      | none =>
          if c = ':' ∧ rest.head? = some ':' then some rest.tail else none

/-- Is the first character an upper-case letter (`x[0].isupper()`)? -/
def headIsUpper (s : String) : Bool :=
  match s.data with
  | [] => false
  | c :: _ => c.isUpper

/-! ## `convert_to_rst`

The renderer walks the tree recursively, carrying a context stack of
ancestor tag names.  In the script the stack is the single shared list
behind the mutable default argument `context=[]`: every call either receives
that list explicitly or picks it up as the default, so all calls mutate one
object.  Passing the stack in and out of each call (top of stack = list
head, `append` = push, `pop` = pop) therefore models the script exactly. -/

/-- The iteration list of the renderer loop: `compounddef` nodes move their
first `templateparamlist` child to the front; nodes of kind `enum` (when the
first reordering did not fire) hoist the `name` child and the
`briefdescription` child (or an empty string) to the front.  A missing
`name` child raises `StopIteration`. -/
def reorderEnum (attrs : List (String × String)) (cs : List Node) : PyRes (List Node) :=
  if attrGet attrs "kind" = some "enum" then
    match cs.find? (isNamed "name") with
    | none => .error .stopIter
    | some nnode =>
        let bd := (cs.find? (isNamed "briefdescription")).getD (Node.txt "")
        .ok (nnode :: bd :: cs.filter
          (fun c => !isNamed "name" c && !isNamed "briefdescription" c))
  else .ok cs

def reorderItems (nm : String) (attrs : List (String × String)) (cs : List Node) :
    PyRes (List Node) :=
  if nm = "compounddef" then
    match cs.find? (isNamed "templateparamlist") with
    | some t => .ok (t :: cs.filter (fun c => !isNamed "templateparamlist" c))
    | none => reorderEnum attrs cs
  else reorderEnum attrs cs

/-- One iteration of the inner loop of the exception-parameterlist branch
of the renderer: each `parameteritem` whose `parametername` text is not
`(None)` renders a `:raises:` directive, recursively rendering the item's
`parameterdescription` with the shared context. -/
def excStep (recur : Node → List String → PyRes (String × List String)) (fuel : Nat)
    (st2 : String × List String) (y : Node) : PyRes (String × List String) := do
  let pn? ← findDesc fuel "parametername" y
  match pn? with
  | none => .error .attrErr
  | some pn => do
      let exc ← textOf fuel pn
      if exc ≠ "(None)" then do
        let pd? ← findDesc fuel "parameterdescription" y
        match pd? with
        | none => .error .typeErr
        | some pd => do
            let rc ← recur pd st2.2
            .ok (st2.1 ++ "\n\n" ++ ":raises " ++
              translate_cpp_to_py exc ++ ": " ++ rc.1, rc.2)
      else .ok st2

/-- One iteration of the renderer loop (the body of `for x in xml`), with
the recursive renderer passed in as `recur`.  The state is the accumulated
output together with the context stack. -/
def convStep (recur : Node → List String → PyRes (String × List String)) (fuel : Nat)
    (st : String × List String) (x : Node) : PyRes (String × List String) :=
  let res := st.1
  let ctx := st.2
  match x with
  | .txt s0 =>
      let s := pyStrip s0
      let sep := if s ≠ "." ∧ s ≠ "" ∧ ¬ (headIsUpper s = true) then " " else ""
      .ok (res ++ sep ++ s, ctx)
  | .elem nm attrs cs =>
      if ctx.contains "enum" ∧ nm = "name" then do
        let t ← textOf fuel x
        .ok (res ++ pyStrip t, ctx)
      else if ctx.contains "enum" ∧ nm = "enumvalue" then do
        let rc ← recur x ctx
        .ok (res ++ "\n\n.. py:enumerator:: " ++ rc.1, rc.2)
      else if nm = "briefdescription" then do
        let rc ← recur x ctx
        .ok (res ++ "\n\n" ++ rc.1, rc.2)
      else if nm = "detaileddescription" then do
        let rc ← recur x ctx
        .ok (res ++ "\n" ++ rc.1, rc.2)
      else if nm = "templateparamlist" then do
        let ps ← liftOpt (findAllW "param" fuel cs)
        let params ← ps.mapM (fun y => do
          let ty? ← findDesc fuel "type" y
          match ty? with
          | none => .error .attrErr
          | some tyN => do
              let z ← textOf fuel tyN
              let dn? ← findDesc fuel "declname" y
              match dn? with
              | none => pure z
              | some dn => do
                  let dt ← textOf fuel dn
                  pure (z ++ " " ++ dt))
        .ok (res ++ "template <" ++ joinWith ", " params ++ ">", ctx)
      else if nm = "computeroutput" then do
        let t ← textOf fuel x
        if t.length ≠ 0 then .ok (res ++ " ``" ++ translate_cpp_to_py t ++ "``", ctx)
        else .ok (res, ctx)
      else if nm = "formula" then do
        let t ← textOf fuel x
        .ok (res ++ " :math:`" ++ String.mk (t.data.filter (fun c => c ≠ '$')) ++ "`", ctx)
      else if nm = "title" then do
        let t ← textOf fuel x
        .ok (res ++ "\n\n:" ++ String.mk (t.data.map Char.toLower) ++ ": ", ctx)
      else if nm = "para" then do
        let rc ← recur x ctx
        .ok (res ++ rc.1, rc.2)
      else if nm = "simplesect" then
        match attrGet attrs "kind" with
        | none => .error .keyErr
        | some k =>
            if k = "par" then do
              let rc ← recur x ctx
              .ok (res ++ rc.1, rc.2)
            else if k = "see" then do
              let rc ← recur x ctx
              .ok (res ++ "\n\n.. seealso:: " ++ rc.1, rc.2)
            else .ok (res, ctx)
      else if nm = "parameterlist" then
        match attrGet attrs "kind" with
        | none => .error .keyErr
        | some k =>
            if k = "exception" then do
              let items ← liftOpt (findAllW "parameteritem" fuel cs)
              items.foldlM (excStep recur fuel) (res, ctx)
            else .ok (res, ctx)
      else if nm = "ref" then do
        let t ← textOf fuel x
        .ok (res ++ " :any:`" ++ translate_cpp_to_py t ++ "`", ctx)
      else if nm = "emphasis" then do
        let t ← textOf fuel x
        .ok (res ++ " *" ++ t ++ "*", ctx)
      else if nm = "bold" then do
        let t ← textOf fuel x
        .ok (res ++ "**" ++ t ++ "**", ctx)
      else if nm = "compoundname" then do
        let t ← textOf fuel x
        let r := match afterColons t.data with
          | some r2 => String.mk r2
          | none => String.mk (t.data.drop 1)
        .ok (res ++ r, ctx)
      else if nm = "ulink" then do
        let t ← textOf fuel x
        match attrGet attrs "url" with
        | none => .error .keyErr
        | some url => .ok (res ++ "`" ++ t ++ " <" ++ url ++ ">`_", ctx)
      else if nm = "itemizedlist" then do
        let rc ← recur x ctx
        .ok (res ++ "\n" ++ rc.1, rc.2)
      else if nm = "listitem" then do
        let rc ← recur x ctx
        .ok (res ++ "\n* " ++ rc.1, rc.2)
      else if nm = "programlisting" then do
        let rc ← recur x ctx
        .ok (res ++ "\n\n.. code-block::\n" ++ rc.1, rc.2)
      else if nm = "codeline" then do
        let rc ← recur x ctx
        .ok (res ++ "\n" ++ rc.1, rc.2)
      else if nm = "highlight" then do
        let rc ← recur x ctx
        .ok (res ++ rc.1, rc.2)
      else if nm = "sp" then .ok (res ++ " ", ctx)
      else .ok (res, ctx)

/-- Model of `convert_to_rst` (script lines 479–574) with explicit fuel and context
state.  Calling it on a text run models the `@accepts(bs4.element.Tag, ...)`
TypeError.  On entry the node name is pushed; if the `kind` attribute is
`enum`, the string `enum` is pushed as well.  On exit an `enum` on top of
the stack is popped, and then one unconditional `pop` happens (an
`IndexError` if the stack is empty); if the popped entry is
`itemizedlist`, a blank line is appended. -/
def convert_to_rst : Nat → Node → List String → PyRes (String × List String)
  | 0, _, _ => .error .fuelOut
  | _ + 1, .txt _, _ => .error .typeErr
  | n + 1, .elem nm attrs cs, ctx0 => do
    let ctx1 := nm :: ctx0
    let ctx2 := if attrGet attrs "kind" = some "enum" then "enum" :: ctx1 else ctx1
    let items ← reorderItems nm attrs cs
    let rc ← items.foldlM (convStep (fun y c => convert_to_rst n y c) n) ("", ctx2)
    let ctx4 := if rc.2.head? = some "enum" then rc.2.tail else rc.2
    match ctx4 with
    | [] => .error .idxErr
    | top :: rest2 =>
        .ok ((if top = "itemizedlist" then rc.1 ++ "\n\n" else rc.1), rest2)

/-! ## The parsed schema model

`get_xml` parses the doxygen file of a scope once and caches, per member
name, a mapping from the comma-joined (stripped, template-parameter-free)
parameter-type string to the `memberdef` element.  A `Member` below records
the fields of that element through the accessors the script actually uses;
a `Thing` records the per-scope state (`__DOXY_DICT` entry, abstract flag,
template parameters, and the doxygen filename the probe found). -/

/-- One `<param>` element of a memberdef: its `<type>` text and the
`<declname>` text when that child is present. -/
structure Param where
  typeText : String
  declname : Option String

/-- A `memberdef` element, through the accessors used by the script:
`kind` / `prot` / `static` / `const` attributes, the `<argsstring>` text,
the `<param>` children, the text of the member's `<type>` element (its
return type), the `<briefdescription>` / `<detaileddescription>` children,
and the `<enumvalue>` descendants. -/
structure Member where
  kind : Option String
  prot : Option String
  staticAttr : Option String
  constAttr : Option String
  argsstring : Option String
  params : List Param
  returnType : String
  brief : Option Node
  detailed : Option Node
  enumvalues : List Node

/-- A requested scope after `get_xml(thing)` has parsed its file:
the fully qualified name, the doxygen filename the probe returned,
whether a `compounddef` was flagged abstract, the class template
parameters, and the two-level overload dictionary (insertion order
preserved, keys as built by `get_xml`). -/
structure Thing where
  name : String
  filename : String
  abstract : Bool
  templateParams : List String
  fns : List (String × List (String × Member))

/-- Ordered association-list lookup (Python `dict` access). -/
def lookupStr {α : Type} : List (String × α) → String → Option α
  | [], _ => none
  | (k, v) :: rest, key => if k = key then some v else lookupStr rest key

/-- Python `dict` insertion: an existing key is updated in place, a new key
is appended. -/
def dictInsert : List (String × String) → String → String → List (String × String)
  | [], k, v => [(k, v)]
  | (a, b) :: rest, k, v =>
      if a = k then (k, v) :: rest else (a, b) :: dictInsert rest k v

/-- Model of `__DOXY_DICT[thing][fn]` (KeyError when the member name is unknown). -/
def getOverloads (t : Thing) (fn : String) : PyRes (List (String × Member)) :=
  match lookupStr t.fns fn with
  | some l => .ok l
  | none => .error .keyErr

/-- Model of `get_xml(thing, fn, params_t)` (script lines 177–230): an empty
`params_t` with exactly one recorded overload returns that overload;
otherwise the overload dictionary is indexed by `params_t`. -/
def getXml (t : Thing) (fn p : String) : PyRes Member := do
  let ovs ← getOverloads t fn
  if p = "" ∧ ovs.length = 1 then
    match ovs with
    | (_, m) :: _ => .ok m
    | [] => .error .keyErr
  else
    match lookupStr ovs p with
    | some m => .ok m
    | none => .error .keyErr

/-- Model of `shortname`: strip a leading `libsemigroups::`. -/
def shortname (thing : String) : String :=
  if strStarts "libsemigroups::" thing then String.mk (thing.data.drop 15) else thing

/-- Model of `is_namespace`: the probed doxygen filename contains `namespace`. -/
def is_namespace (t : Thing) : Bool :=
  subStr "namespace" t.filename

/-- Model of `is_class_template`: the scope has template parameters. -/
def is_class_template (t : Thing) : Bool :=
  t.templateParams.length ≠ 0

/-- Model of `shortname_`: `shortname` plus a trailing underscore for templates. -/
def shortname_ (t : Thing) : String :=
  if is_class_template t then shortname t.name ++ "_" else shortname t.name

/-- Model of `is_abstract_class`. -/
def is_abstract_class (t : Thing) : Bool :=
  t.abstract

/-- Model of `is_public`: namespaces count as public; otherwise the `prot` attribute
must be present and equal to `public`. -/
def is_public (t : Thing) (fn p : String) : PyRes Bool :=
  if is_namespace t then .ok true
  else do
    let m ← getXml t fn p
    .ok (m.prot = some "public")

/-- Model of `is_enum`: the `kind` attribute is `enum`. -/
def is_enum (t : Thing) (fn p : String) : PyRes Bool := do
  let m ← getXml t fn p
  .ok (m.kind = some "enum")

/-- Model of `is_typedef`: the `kind` attribute is `typedef`. -/
def is_typedef (t : Thing) (fn p : String) : PyRes Bool := do
  let m ← getXml t fn p
  .ok (m.kind = some "typedef")

/-- Model of `is_static_mem_fn`: `xml["static"]` raises a KeyError when the
attribute is missing. -/
def is_static_mem_fn (t : Thing) (fn p : String) : PyRes Bool :=
  if is_namespace t then .ok false
  else do
    let m ← getXml t fn p
    match m.staticAttr with
    | none => .error .keyErr
    | some v => .ok (v = "yes")

/-- Model of `is_const_mem_fn`: the script asserts that the `const` attribute is
present, then compares it with `yes`. -/
def is_const_mem_fn (t : Thing) (fn p : String) : PyRes Bool :=
  if is_namespace t then .ok false
  else do
    let m ← getXml t fn p
    match m.constAttr with
    | none => .error .assertErr
    | some v => .ok (v = "yes")

/-- Model of `is_deleted_mem_fn`: no `<argsstring>` means not deleted; otherwise its
text must contain `=delete`. -/
def is_deleted_mem_fn (t : Thing) (fn p : String) : PyRes Bool := do
  let m ← getXml t fn p
  match m.argsstring with
  | none => .ok false
  | some a => .ok (subStr "=delete" a)

/-- Model of `is_overloaded`: more than one overload recorded for the name. -/
def is_overloaded (t : Thing) (fn : String) : PyRes Bool := do
  let ovs ← getOverloads t fn
  .ok (decide (1 < ovs.length))

/-- The last `::`-separated component (`class_n.split("::")[-1]`). -/
def lastQualified : List Char → List Char
  | [] => []
  | ':' :: ':' :: rest => lastQualified rest
  | c :: rest =>
      if subL [':', ':'] rest then lastQualified rest else c :: rest

/-- Model of `is_constructor`: the member name begins with the unqualified scope
name. -/
def is_constructor (className fn : String) : Bool :=
  strStarts (String.mk (lastQualified className.data)) fn

/-- Model of `is_operator` (the scope argument of the script is unused). -/
def is_operator (fn : String) : Bool :=
  strStarts "operator" fn || fn = "at" || fn = "hash_value"

/-- Model of `is_iterator` (the scope argument of the script is unused). -/
def is_iterator (fn : String) : Bool :=
  strStarts "cbegin" fn || strStarts "begin" fn

/-- Model of `params_dict`: the member's parameters whose type does not start with
`typename` and which carry a declared name, as an ordered name-to-type
dictionary. -/
def params_dict (t : Thing) (fn p : String) : PyRes (List (String × String)) := do
  let m ← getXml t fn p
  .ok (m.params.foldl (fun acc pr =>
        if !strStarts "typename" pr.typeText then
          match pr.declname with
          | some nm => dictInsert acc nm pr.typeText
          | none => acc
        else acc) [])

/-- Model of `return_type`: the text of the member's `<type>` element. -/
def return_type (t : Thing) (fn p : String) : PyRes String := do
  let m ← getXml t fn p
  .ok m.returnType

/-- Model of `param_names`: the keys of `params_dict`. -/
def param_names (t : Thing) (fn p : String) : PyRes (List String) := do
  let pd ← params_dict t fn p
  .ok (pd.map Prod.fst)

/-- Model of `fn_sig`: one "type name" string per entry of `params_dict`. -/
def fn_sig (t : Thing) (fn p : String) : PyRes (List String) := do
  let pd ← params_dict t fn p
  .ok (pd.map (fun pr => pr.2 ++ " " ++ pr.1))

/-- Model of `translate_cpp_operator_to_py`; an unknown operator is returned
unchanged (the script also writes a diagnostic to stderr in that case). -/
def translate_cpp_operator_to_py (fn : String) : String :=
  if fn = "operator==" then "__eq__"
  else if fn = "operator!=" then "__ne__"
  else if fn = "operator<" then "__lt__"
  else if fn = "operator>" then "__gt__"
  else if fn = "operator<=" then "__le__"
  else if fn = "operator>=" then "__ge__"
  else if fn = "operator+" then "__add__"
  else if fn = "operator*" then "__mul__"
  else if fn = "operator()" then "__call__"
  else if fn = "operator*=" then "__imul__"
  else if fn = "operator+=" then "__iadd__"
  else if fn = "at" then "__getitem__"
  else if fn = "hash_value" then "__hash__"
  else fn

/-- The fallible part of `skip_fn`, reached when none of the pure
disjuncts fired: a pointer anywhere in the return type skips
unconditionally (the `bool(*)()` whitelist does not apply here), then
typedefs, unknown overloads (the caught KeyError), deleted members and
non-public members are skipped. -/
def skip_fnTail (t : Thing) (fn p : String) : PyRes Bool := do
  let rt ← return_type t fn p
  if subStr "*" rt then .ok true
  else do
    let td ← is_typedef t fn p
    if td then .ok true
    else
      match getXml t fn p with
      | .error .keyErr => .ok true
      | .error e => .error e
      | .ok _ => do
          let del ← is_deleted_mem_fn t fn p
          if del then .ok true
          else do
            let pub ← is_public t fn p
            .ok (!pub)

/-- Model of `skip_fn` (script lines 767–789), with the disjuncts evaluated in the
script's short-circuit order; only the final `get_xml` probe has its
KeyError caught. -/
def skip_fn (t : Thing) (fn p : String) : PyRes Bool :=
  if strEnds "_no_checks" fn then .ok true
  else if subStr "initializer_list" p then .ok true
  else if strStarts "cend" fn then .ok true
  else if strStarts "end" fn then .ok true
  else if fn = "operator=" ∨ fn = "operator[]" ∨ fn = "operator<<" then .ok true
  else if subStr "&&" p then .ok true
  else if subStr "*" p ∧ pyStrip p ≠ "bool(*)()" then .ok true
  else skip_fnTail t fn p

/-! ## The pybind11 emitters -/

/-- Model of `pybind11_stub` (script lines 605–611). -/
def pybind11_stub (t : Thing) : String :=
  if !is_namespace t then
    if !is_class_template t then
      "py::class_<" ++ shortname_ t ++ "> thing(m, \"" ++ shortname t.name ++ "\");\n"
    else
      "py::class_<" ++ shortname_ t ++ "> thing(m, name.c_str());\n"
  else "m"

/-- Model of `pybind11_fn_params`: the comma-joined `py::arg` list. -/
def pybind11_fn_params (t : Thing) (fn p : String) : PyRes String := do
  let pn ← param_names t fn p
  .ok (joinWith ", " (pn.map (fun x => "py::arg(\"" ++ x ++ "\")")))

/-- Model of `pybind11_default_repr` (script lines 756–759). -/
def pybind11_default_repr (t : Thing) : String :=
  if is_abstract_class t then ""
  else "thing.def(\"__repr__\", &detail::to_string<" ++ shortname_ t ++ " const&>);\n"

/-- The `end`/`cend` name derived from a `begin`/`cbegin` name by the
substitution of `pybind11_iterator` (positions 5 and 6). -/
def iteratorEndName (fn : String) : String :=
  if strStarts "begin" fn then "end" ++ String.mk (fn.data.drop 5)
  else "cend" ++ String.mk (fn.data.drop 6)

/-- Model of `pybind11_iterator` (script lines 672–681): one combined
`py::make_iterator` expression wrapping the begin call and the end call
(the scope argument of the script is unused). -/
def pybind11_iterator (fn pnS : String) : String :=
  "py::make_iterator(self." ++ fn ++ "(" ++ pnS ++ "), self." ++
    iteratorEndName fn ++ "(" ++ pnS ++ "))"

/-- The suffix of the member name from its first underscore (`fn[fn.find("_"):]`),
or the empty string when there is none. -/
def fromUnderscore : List Char → Option (List Char)
  | [] => none
  | c :: rest => if c = '_' then some (c :: rest) else fromUnderscore rest

/-- Model of `"iterator" + suffix` naming data for iterator bindings. -/
def underscoreSuffix (fn : String) : String :=
  match fromUnderscore fn.data with
  | some l => String.mk l
  | none => ""

/-- Model of `pybind11_operator` (script lines 664–669). -/
def pybind11_operator (t : Thing) (fn : String) : String :=
  let op := if strStarts "operator" fn then String.mk (fn.data.drop 8) else fn
  if !(op = "at" ∨ op = "hash_value") then "py::self " ++ op ++ " py::self"
  else
    "\"" ++ translate_cpp_operator_to_py fn ++ "\", &" ++ shortname_ t ++ "::" ++ fn ++
      ", py::is_operator()"

/-- Model of `rst_fmt` shells out to the external `rstfmt` tool and returns the file
contents, falling back to the unchanged input when the tool fails; the
model keeps the fallback (identity) behaviour. -/
def rst_fmt (doc : String) : String :=
  doc

/-- Keep exactly the nodes whose `kind` attribute equals `k`
(`[x for x in l if x.attrs["kind"] == k]`; a missing attribute raises). -/
def filterByKind : List Node → String → PyRes (List Node)
  | [], _ => .ok []
  | n :: rest, k =>
      match n with
      | .txt _ => .error .keyErr
      | .elem _ attrs _ =>
          match attrGet attrs "kind" with
          | none => .error .keyErr
          | some v => (filterByKind rest k).map (fun r => if v = k then n :: r else r)

/-- Model of `pybind11_doc` (script lines 621–661): brief description, `:param:` /
`:type:` directives from the detailed description's parameter lists (an
unknown parameter name is skipped, with a diagnostic to stderr), the
rendered detailed description, and the `:returns:` / `:rtype:` block.  The
renderer calls start on the shared context stack, which is empty between
balanced top-level renders. -/
def pybind11_doc (fuel : Nat) (t : Thing) (fn p : String) : PyRes String := do
  let m ← getXml t fn p
  let bnode ← match m.brief with | some b => pure b | none => .error .attrErr
  let btext ← textOf fuel bnode
  let brief := pyStrip btext
  let dnode ← match m.detailed with | some d => pure d | none => .error .attrErr
  let doc0 := if brief ≠ "" then brief ++ "\n" else ""
  let pls ← findAllOf fuel "parameterlist" dnode
  let params ← filterByKind pls "param"
  let pd ← params_dict t fn p
  let doc1 ← params.foldlM (fun acc x => do
      let items ← findAllOf fuel "parameteritem" x
      items.foldlM (fun acc2 y => do
          let pn? ← findDesc fuel "parametername" y
          let pn ← match pn? with | some q => pure q | none => .error .attrErr
          let nam ← textOf fuel pn
          let pdesc? ← findDesc fuel "parameterdescription" y
          let pdesc ← match pdesc? with | some q => pure q | none => .error .attrErr
          let para? ← findDesc fuel "para" pdesc
          let des ← match para? with | some q => textOf fuel q | none => pure ""
          let acc3 := acc2 ++ "\n:param " ++ nam ++ ": " ++ des
          match lookupStr pd nam with
          | some ty =>
              pure (acc3 ++ "\n:type " ++ nam ++ ": " ++ translate_cpp_to_py ty ++ "\n")
          | none => pure acc3) acc) doc0
  let sss ← findAllOf fuel "simplesect" dnode
  let returns ← filterByKind sss "return"
  let conv ← convert_to_rst fuel dnode []
  let doc2 := doc1 ++ conv.1
  let doc3 ← match returns with
    | [] => pure doc2
    | r0 :: _ => do
        let doc2b := if 0 < params.length then doc2 ++ "\n" else doc2
        let convR ← convert_to_rst fuel r0 []
        let rt ← return_type t fn p
        pure (doc2b ++ "\n\n:returns: " ++ convR.1 ++ "\n\n:rtype: " ++
          translate_cpp_to_py rt ++ "\n")
  .ok (rst_fmt doc3)

/-- Model of `pybind11_enum` (script lines 684–695). -/
def pybind11_enum (fuel : Nat) (t : Thing) (fn p : String) : PyRes String := do
  let doc ← pybind11_doc fuel t fn p
  let m ← getXml t fn p
  let cppName := shortname t.name ++ "::" ++ fn
  let pyName := shortname t.name ++ "__" ++ fn
  let head := "py::enum_<" ++ cppName ++ ">(m, \"" ++ pyName ++ "\", R\"pbdoc(\n" ++
    doc ++ "\n)pbdoc\")"
  let body ← m.enumvalues.foldlM (fun acc ev => do
      let n? ← findDesc fuel "name" ev
      let nn ← match n? with | some q => pure q | none => .error .attrErr
      let nm ← textOf fuel nn
      pure (acc ++ "\n.value(\"" ++ nm ++ "\", " ++ cppName ++ "::" ++ nm ++ ")")) ""
  .ok (head ++ body ++ ";\n")

/-- Literal left-to-right non-overlapping replacement, driven by fuel (the
initial fuel of the wrapper always suffices).  Models the
`re.sub(shortname(thing), shortname_(thing), params_t)` call, whose pattern
is a plain class name. -/
def replaceAux : Nat → List Char → List Char → List Char → List Char
  | 0, _, _, s => s
  | _ + 1, _, _, [] => []
  | n + 1, pat, rep, c :: rest =>
      if pat ≠ [] ∧ pat.isPrefixOf (c :: rest) then
        rep ++ replaceAux n pat rep ((c :: rest).drop pat.length)
      else c :: replaceAux n pat rep rest

/-- String-level wrapper for `replaceAux`. -/
def replaceOcc (pat rep s : String) : String :=
  String.mk (replaceAux (s.data.length + 1) pat.data rep.data s.data)

/-- The `thing.def...` statement layout shared by every non-constructor
branch of `pybind11_fn`: with a parameter list when `py::arg`s exist,
without one otherwise. -/
def defStmt (defKw pyName func paramsStr doc : String) : String :=
  if 0 < paramsStr.length then
    "thing." ++ defKw ++ "(" ++ pyName ++ "\n" ++ func ++ ",\n" ++ paramsStr ++
      ",\nR\"pbdoc(\n" ++ doc ++ "\n)pbdoc\");\n"
  else
    "thing." ++ defKw ++ "(" ++ pyName ++ "\n" ++ func ++ ",\nR\"pbdoc(\n" ++ doc ++
      "\n)pbdoc\");\n"

/-- The tail of `pybind11_fn` after the callable expression has been
chosen: `py::arg` list, `def` versus `def_static`, documentation, and the
final statement. -/
def finishDef (fuel : Nat) (t : Thing) (fn p pyName func : String) : PyRes String := do
  let pns ← pybind11_fn_params t fn p
  let st ← is_static_mem_fn t fn p
  let doc ← pybind11_doc fuel t fn p
  .ok (defStmt (if st then "def_static" else "def") pyName func pns doc)

/-- The lambda parameter list of the overloaded/iterator branch of
`pybind11_fn`: outside namespaces it is a const or non-const `self`
reference (chosen by the overload's const qualifier) followed by the
declared parameters. -/
def pybind11_fnSig (t : Thing) (fn p : String) (sigL : List String) : PyRes String :=
  if !is_namespace t then do
    let cq ← is_const_mem_fn t fn p
    pure (joinWith ", "
      ((if cq then shortname_ t ++ " const& self" else shortname_ t ++ "& self") :: sigL))
  else pure (joinWith ", " sigL)

/-- Model of `pybind11_fn` after the enum branch: constructors (suppressed for
abstract scopes, with the scope name templated in the parameter list for
class templates); a forwarding lambda for overloaded or iterator members
(iterator members renamed `iterator<suffix>` and wrapped in
`py::make_iterator`); operators; and otherwise a plain qualified
reference. -/
def pybind11_fnRest (fuel : Nat) (t : Thing) (fn p : String) : PyRes String :=
  if is_constructor t.name fn then
    if is_abstract_class t then .ok ""
    else
      let p2 := if is_class_template t then replaceOcc (shortname t.name) (shortname_ t) p
                else p
      .ok ("thing.def(py::init<" ++ p2 ++ ">());\n")
  else do
    let ov ← is_overloaded t fn
    if ov || is_iterator fn then do
      let sigL ← fn_sig t fn p
      let sig ← pybind11_fnSig t fn p sigL
      let pnL ← param_names t fn p
      let pnS := joinWith ", " pnL
      let pyName := if is_iterator fn then "\"iterator" ++ underscoreSuffix fn ++ "\""
                    else "\"" ++ shortname fn ++ "\", "
      let funBody := if is_iterator fn then pybind11_iterator fn pnS
                     else "self." ++ fn ++ "(" ++ pnS ++ ")"
      finishDef fuel t fn p pyName ("[](" ++ sig ++ ") \x7b\nreturn " ++ funBody ++ ";\n\x7d")
    else if is_operator fn then
      finishDef fuel t fn p "" (pybind11_operator t fn)
    else
      finishDef fuel t fn p ("\"" ++ shortname fn ++ "\", ")
        ("&" ++ shortname_ t ++ "::" ++ fn)

/-- Model of `pybind11_fn` (script lines 698–753): a public member of kind `enum`
is emitted as an enum, everything else falls through to
`pybind11_fnRest`. -/
def pybind11_fn (fuel : Nat) (t : Thing) (fn p : String) : PyRes String := do
  let en ← is_enum t fn p
  if en then do
    let pub ← is_public t fn p
    if pub then pybind11_enum fuel t fn p
    else pybind11_fnRest fuel t fn p
  else pybind11_fnRest fuel t fn p

/-- The per-member emission loop of `generate` over one member's overload
dictionary: skip what `skip_fn` rejects, otherwise record the statement
`pybind11_fn` produces, keyed by the (name, parameter-types) pair. -/
def emitOverloads (fuel : Nat) (t : Thing) (fn : String) :
    List (String × Member) → PyRes (List ((String × String) × String))
  | [] => .ok []
  | (p, _) :: rest => do
      let sk ← skip_fn t fn p
      if sk then emitOverloads fuel t fn rest
      else do
        let s ← pybind11_fn fuel t fn p
        let tail0 ← emitOverloads fuel t fn rest
        .ok (((fn, p), s) :: tail0)

/-- The outer emission loop of `generate` over the scope dictionary. -/
def emitAll (fuel : Nat) (t : Thing) :
    List (String × List (String × Member)) → PyRes (List ((String × String) × String))
  | [] => .ok []
  | (fn, ovs) :: rest => do
      let h ← emitOverloads fuel t fn ovs
      let r ← emitAll fuel t rest
      .ok (h ++ r)

/-- The binding statements emitted for a scope, in emission order. -/
def generateStmts (fuel : Nat) (t : Thing) : PyRes (List ((String × String) × String)) :=
  emitAll fuel t t.fns

/-- Model of `generate` (script lines 792–805) on a parsed scope: the class stub,
the default `__repr__`, then the per-overload statements in dictionary
order.  The script appends each statement to `out` as it goes; joining the
recorded statements yields the same string. -/
def generate (fuel : Nat) (t : Thing) : PyRes String := do
  let stmts ← generateStmts fuel t
  .ok (pybind11_stub t ++ pybind11_default_repr t ++ String.join (stmts.map Prod.snd))

/-! ## `doxygen_filename` and the top-level loop -/

/-- Model of `re.sub("_", "__", thing)`: double every underscore. -/
def dblUnderscore : List Char → List Char
  | [] => []
  | c :: rest =>
      if c = '_' then '_' :: '_' :: dblUnderscore rest else c :: dblUnderscore rest

/-- Model of `re.compile(r"::").sub("_1_1", thing)`: replace every `::` (left to
right, non-overlapping) by the infix `_1_1`. -/
def colonsToInfix : List Char → List Char
  | [] => []
  | ':' :: ':' :: rest => '_' :: '1' :: '_' :: '1' :: colonsToInfix rest
  | c :: rest => c :: colonsToInfix rest

/-- Model of `re.compile(r"([A-Z])").sub(r"_\1", thing).lower()` as the single pass
the script performs: prepend an underscore to each upper-case letter and
lower-case everything. -/
def underscoreLower : List Char → List Char
  | [] => []
  | c :: rest =>
      if c.isUpper then '_' :: c.toLower :: underscoreLower rest
      else c.toLower :: underscoreLower rest

/-- The mangled name computed by `doxygen_filename` (script lines 157–162). -/
def mangleName (thing : String) : String :=
  String.mk (underscoreLower (colonsToInfix (dblUnderscore thing.data)))

/-- Insert an underscore before every upper-case letter (spec step (c)). -/
def insertBeforeUpper : List Char → List Char
  | [] => []
  | c :: rest =>
      if c.isUpper then '_' :: c :: insertBeforeUpper rest
      else c :: insertBeforeUpper rest

/-- The mangled name as the specification words it: (a) double the
underscores, (b) replace each `::` by the fixed infix, (c) insert an
underscore before every upper-case letter, (d) lower-case the whole
string. -/
def mangleSpec (thing : String) : String :=
  String.mk ((insertBeforeUpper (colonsToInfix (dblUnderscore thing.data))).map Char.toLower)

/-- The three candidate schema filenames in the probing order of the
script, built from the spec-mangled name. -/
def candidates (thing : String) : List String :=
  ["class", "struct", "namespace"].map
    (fun pre => "docs/xml/" ++ pre ++ mangleSpec thing ++ ".xml")

/-- The probing loop of `doxygen_filename`; `ex` is the file-existence
oracle (`exists(fname) and isfile(fname)`). -/
def probeCandidates (ex : String → Bool) (mangled : String) : List String → Option String
  | [] => none
  | pre :: rest =>
      let f := "docs/xml/" ++ pre ++ mangled ++ ".xml"
      if ex f then some f else probeCandidates ex mangled rest

/-- Model of `doxygen_filename` (script lines 146–168): the first existing candidate
filename, or the empty string together with a warning on the diagnostic
stream.  The script memoizes this pure computation with `@cache`. -/
def doxygen_filenameD (ex : String → Bool) (thing : String) : String × List Diag :=
  match probeCandidates ex (mangleName thing) ["class", "struct", "namespace"] with
  | some f => (f, [])
  | none => ("", [Diag.missingSchema thing])

/-- Model of `generate` including the missing-schema guard (script lines 793–795):
an empty filename means the scope is skipped with an empty body; otherwise
the parsed scope (`db thing`) is emitted.  The second component collects
the diagnostics. -/
def generateD (ex : String → Bool) (db : String → Thing) (fuel : Nat) (thing : String) :
    PyRes (String × List Diag) :=
  let fd := doxygen_filenameD ex thing
  if fd.1.length = 0 then .ok ("", fd.2)
  else (generate fuel (db thing)).map (fun o => (o, fd.2))

/-- The loop of `main` over the requested scope names: each one is
generated in turn; an uncaught exception would abort the remainder. -/
def runAll (ex : String → Bool) (db : String → Thing) (fuel : Nat) :
    List String → PyRes (List (String × List Diag))
  | [] => .ok []
  | t :: ts => do
      let r ← generateD ex db fuel t
      let rest ← runAll ex db fuel ts
      .ok (r :: rest)

/-! ## Concrete scopes used by the witnesses -/

/-- An empty `<briefdescription>` element. -/
def docBrief : Node := Node.elem "briefdescription" [] []

/-- An empty `<detaileddescription>` element. -/
def docDetail : Node := Node.elem "detaileddescription" [] []

/-- A public, non-static, non-const, non-deleted member function with the
given parameters and return type and empty documentation. -/
def fnMember (ps : List Param) (rt : String) : Member :=
  ⟨some "function", some "public", some "no", some "no", some "()", ps, rt,
    some docBrief, some docDetail, []⟩

/-- A scope with no members (placeholder database entry). -/
def emptyThing : Thing := ⟨"", "", false, [], []⟩

/-- Class `Foo` with an overloaded member `bar` and a single-overload
member `baz`. -/
def fooThing : Thing :=
  ⟨"Foo", "docs/xml/class_foo.xml", false, [],
    [("bar", [("int", fnMember [⟨"int", some "x"⟩] "void"),
              ("std::string const &", fnMember [⟨"std::string const &", some "s"⟩] "void")]),
     ("baz", [("int", fnMember [⟨"int", some "x"⟩] "void")])]⟩

/-- Class `Foo` with a member `endomorphisms`, which is not the partner of
any `begin` member. -/
def endoThing : Thing :=
  ⟨"Foo", "docs/xml/class_foo.xml", false, [],
    [("endomorphisms", [("", fnMember [] "void")])]⟩

/-- Class `Foo` with a member `foo` whose single overload has the
whitelisted callback parameter signature but a pointer return type. -/
def ptrThing : Thing :=
  ⟨"Foo", "docs/xml/class_foo.xml", false, [],
    [("foo", [("bool(*)()", fnMember [] "int *")])]⟩

/-- Class `Foo` with a member `good` whose single overload has the
whitelisted callback parameter signature and a clean return type. -/
def cleanThing : Thing :=
  ⟨"Foo", "docs/xml/class_foo.xml", false, [],
    [("good", [("bool(*)()", fnMember [] "void")])]⟩

/-! ## C6: the relative priority of the enum and constructor rules -/

/-- Class `Foo` with a public member `Foobar` of schema kind `enum` whose
name begins with the unqualified scope name. -/
def enumThing : Thing :=
  ⟨"Foo", "docs/xml/class_foo.xml", false, [],
    [("Foobar", [("", ⟨some "enum", some "public", some "no", some "no", none, [], "",
        some docBrief, some docDetail, []⟩)])]⟩

/-- Class `Foo` with a constructor overload `Foo(int)`. -/
def ctorThing : Thing :=
  ⟨"Foo", "docs/xml/class_foo.xml", false, [],
    [("Foo", [("int", fnMember [⟨"int", some "x"⟩] "")])]⟩

/-- Abstract class `Foo` with two recorded constructor overloads. -/
def absThing : Thing :=
  ⟨"Foo", "docs/xml/class_foo.xml", true, [],
    [("Foo", [("int", fnMember [⟨"int", some "x"⟩] ""), ("", fnMember [] "")])]⟩

/-! ## C4: iterator pairing -/

/-- Class `Foo` with the iterator pair `begin_rules` / `end_rules`. -/
def iterThing : Thing :=
  ⟨"Foo", "docs/xml/class_foo.xml", false, [],
    [("begin_rules", [("", fnMember [] "const_iterator")]),
     ("end_rules", [("", fnMember [] "const_iterator")])]⟩

/-! ## C9: renderer determinism and context balance

The renderer pushes the node name (and possibly `enum`) on entry and pops
on exit; the pops match the pushes for every node except an element whose
tag name is literally `enum` without `kind="enum"` — such a node pops one
entry it did not push.  `GoodTree` rules that case out (doxygen trees never
use `enum` as a tag name). -/

/-- Trees in which every element named `enum` carries `kind="enum"`. -/
inductive GoodTree : Node → Prop where
  | txt (s : String) : GoodTree (.txt s)
  | elem (nm : String) (attrs : List (String × String)) (cs : List Node)
      (hname : attrGet attrs "kind" = some "enum" ∨ nm ≠ "enum")
      (hcs : ∀ c ∈ cs, GoodTree c) :
      GoodTree (.elem nm attrs cs)

example : translate_cpp_to_py "size_t const &" = "int" := by decide

example : translate_cpp_to_py "std::vector<uint8_t>" = "list[int]" := by decide

example : translate_cpp_to_py "word_type const &" = "word_type" := by decide

example : translate_cpp_to_py "const_iterator" = "Iterator" := by decide

example : translate_cpp_to_py "con&st" = "const" := by decide

example : translate_cpp_to_py "const" = "" := by decide

/-! ## Fixed points of the stripping passes

The idempotence analysis below needs: the output of the ampersand pass
contains no ampersand; the output of the template pass contains no
closable `<`; the output of `strip()` is already stripped; and each of
these properties is preserved by the passes that run afterwards. -/
theorem mem_dropWhile {p : Char → Bool} {c : Char} :
    ∀ {l : List Char}, c ∈ l.dropWhile p → c ∈ l := by
  intro l h
  induction l with
  | nil => simp [List.dropWhile] at h
  | cons a t ih =>
      by_cases hp : p a
      · simp [List.dropWhile, hp] at h
        exact List.mem_cons_of_mem a (ih h)
      · simpa [List.dropWhile, hp] using h

theorem mem_pyStripRight {c : Char} :
    ∀ {l : List Char}, c ∈ pyStripRight l → c ∈ l := by
  intro l h
  induction l with
  | nil => simp [pyStripRight] at h
  | cons a t ih =>
      simp only [pyStripRight] at h
      split at h
      · exact absurd h (List.not_mem_nil c)
      · rcases List.mem_cons.mp h with h1 | h2
        · exact h1 ▸ List.mem_cons_self a t
        · exact List.mem_cons_of_mem a (ih h2)

theorem mem_pyStripL {c : Char} {l : List Char} (h : c ∈ pyStripL l) : c ∈ l :=
  mem_dropWhile (mem_pyStripRight h)

theorem mem_stAux {c : Char} :
    ∀ (s : List Char) (ob : Option (List Char)), c ∈ stAux ob s →
      c ∈ s ∨ c = '<' ∨ (∃ buf, ob = some buf ∧ c ∈ buf) := by
  intro s
  induction s with
  | nil =>
      intro ob h
      cases ob with
      | none => simp [stAux] at h
      | some buf =>
          simp only [stAux] at h
          rcases List.mem_cons.mp h with h1 | h2
          · exact Or.inr (Or.inl h1)
          · exact Or.inr (Or.inr ⟨buf, rfl, List.mem_reverse.mp h2⟩)
  | cons a t ih =>
      intro ob h
      cases ob with
      | none =>
          simp only [stAux] at h
          split at h
          · rcases ih (some []) h with h1 | h2 | ⟨buf, hb, hm⟩
            · exact Or.inl (List.mem_cons_of_mem a h1)
            · exact Or.inr (Or.inl h2)
            · cases hb; simp at hm
          · rcases List.mem_cons.mp h with h1 | h2
            · exact Or.inl (h1 ▸ List.mem_cons_self a t)
            · rcases ih none h2 with h3 | h4 | ⟨buf, hb, _⟩
              · exact Or.inl (List.mem_cons_of_mem a h3)
              · exact Or.inr (Or.inl h4)
              · cases hb
      | some buf =>
          simp only [stAux] at h
          split at h
          · rcases ih none h with h1 | h2 | ⟨b2, hb, _⟩
            · exact Or.inl (List.mem_cons_of_mem a h1)
            · exact Or.inr (Or.inl h2)
            · cases hb
          · split at h
            · rcases List.mem_cons.mp h with h1 | h2
              · exact Or.inr (Or.inl h1)
              · rcases List.mem_append.mp h2 with h3 | h4
                · exact Or.inr (Or.inr ⟨buf, rfl, List.mem_reverse.mp h3⟩)
                · rcases List.mem_cons.mp h4 with h5 | h6
                  · rename_i ha
                    exact Or.inl (by simp [h5, ha])
                  · rcases ih none h6 with h7 | h8 | ⟨b2, hb, _⟩
                    · exact Or.inl (List.mem_cons_of_mem a h7)
                    · exact Or.inr (Or.inl h8)
                    · cases hb
            · rcases ih (some (a :: buf)) h with h1 | h2 | ⟨b2, hb, hm⟩
              · exact Or.inl (List.mem_cons_of_mem a h1)
              · exact Or.inr (Or.inl h2)
              · cases hb
                rcases List.mem_cons.mp hm with h3 | h4
                · exact Or.inl (h3 ▸ List.mem_cons_self a t)
                · exact Or.inr (Or.inr ⟨buf, rfl, h4⟩)

theorem noClose_of_noGTNL : ∀ {l : List Char}, noGTNL l → noClose l = true := by
  intro l h
  induction l with
  | nil => rfl
  | cons a t ih =>
      have ha := h a (List.mem_cons_self a t)
      simp only [noClose, if_neg ha.1, if_neg ha.2]
      exact ih (fun c hc => h c (List.mem_cons_of_mem a hc))

theorem noClose_append_nl {m t : List Char} (h : noGTNL m) :
    noClose (m ++ '\n' :: t) = true := by
  induction m with
  | nil => simp [noClose]
  | cons a m2 ih =>
      have ha := h a (List.mem_cons_self a m2)
      simp only [List.cons_append, noClose, if_neg ha.1, if_neg ha.2]
      exact ih (fun c hc => h c (List.mem_cons_of_mem a hc))

theorem noGTNL_suffix {a : Char} {l : List Char} (h : noGTNL (a :: l)) : noGTNL l :=
  fun c hc => h c (List.mem_cons_of_mem a hc)

theorem pnc_of_noGTNL : ∀ {l : List Char}, noGTNL l → pnc l = true := by
  intro l h
  induction l with
  | nil => rfl
  | cons a t ih =>
      simp only [pnc, Bool.and_eq_true]
      refine ⟨?_, ih (noGTNL_suffix h)⟩
      split
      · exact noClose_of_noGTNL (noGTNL_suffix h)
      · rfl

theorem pnc_append_nl {m t : List Char} (hm : noGTNL m) (ht : pnc t = true) :
    pnc (m ++ '\n' :: t) = true := by
  induction m with
  | nil => simpa [pnc] using ht
  | cons a m2 ih =>
      simp only [List.cons_append, pnc, Bool.and_eq_true]
      refine ⟨?_, ih (noGTNL_suffix hm)⟩
      split
      · exact noClose_append_nl (noGTNL_suffix hm)
      · rfl

theorem pnc_stAux :
    ∀ (s : List Char) (ob : Option (List Char)),
      (∀ buf, ob = some buf → noGTNL buf) → pnc (stAux ob s) = true := by
  intro s
  induction s with
  | nil =>
      intro ob hob
      cases ob with
      | none => rfl
      | some buf =>
          simp only [stAux]
          refine pnc_of_noGTNL ?_
          intro c hc
          rcases List.mem_cons.mp hc with h1 | h2
          · simp [h1]
          · exact hob buf rfl c (List.mem_reverse.mp h2)
  | cons a t ih =>
      intro ob hob
      cases ob with
      | none =>
          simp only [stAux]
          split
          · exact ih (some []) (by intro buf hb c hc; cases hb; simp at hc)
          · rename_i hlt
            simp only [pnc, Bool.and_eq_true, if_neg hlt]
            exact ⟨trivial, ih none (by intro buf hb; cases hb)⟩
      | some buf =>
          simp only [stAux]
          split
          · exact ih none (by intro b hb; cases hb)
          · split
            · rename_i hgt hnl
              have hbuf : noGTNL ('<' :: buf.reverse) := by
                intro c hc
                rcases List.mem_cons.mp hc with h1 | h2
                · simp [h1]
                · exact hob buf rfl c (List.mem_reverse.mp h2)
              have := pnc_append_nl hbuf (ih none (by intro b hb; cases hb))
              simpa using this
            · rename_i hgt hnl
              refine ih (some (a :: buf)) ?_
              intro b hb c hc
              cases hb
              rcases List.mem_cons.mp hc with h1 | h2
              · subst h1; exact ⟨hgt, hnl⟩
              · exact hob buf rfl c h2

theorem noClose_extend {r w : List Char} (h : noClose r = false) :
    noClose (r ++ w) = false := by
  induction r with
  | nil => simp [noClose] at h
  | cons a t ih =>
      simp only [noClose] at h ⊢
      split at h
      · simp_all [noClose]
      · split at h
        · exact absurd h (by simp)
        · simp_all [List.cons_append, noClose]

theorem noClose_pyStripRight :
    ∀ {l : List Char}, noClose l = true → noClose (pyStripRight l) = true := by
  intro l h
  induction l with
  | nil => simpa [pyStripRight] using h
  | cons a t ih =>
      simp only [pyStripRight]
      split
      · rfl
      · by_cases hgt : a = '>'
        · rw [hgt] at h; simp [noClose] at h
        · by_cases hnl : a = '\n'
          · simp [noClose, hgt, hnl]
          · simp only [noClose, if_neg hgt, if_neg hnl] at h ⊢
            exact ih h

theorem pnc_tail {a : Char} {l : List Char} (h : pnc (a :: l) = true) : pnc l = true := by
  simp only [pnc, Bool.and_eq_true] at h
  exact h.2

theorem pnc_dropWhile {p : Char → Bool} :
    ∀ {l : List Char}, pnc l = true → pnc (l.dropWhile p) = true := by
  intro l h
  induction l with
  | nil => exact h
  | cons a t ih =>
      by_cases hp : p a
      · simp only [List.dropWhile, hp]
        exact ih (pnc_tail h)
      · simpa [List.dropWhile, hp] using h

theorem pnc_pyStripRight :
    ∀ {l : List Char}, pnc l = true → pnc (pyStripRight l) = true := by
  intro l h
  induction l with
  | nil => exact h
  | cons a t ih =>
      simp only [pyStripRight]
      split
      · rfl
      · simp only [pnc, Bool.and_eq_true] at h ⊢
        refine ⟨?_, ih h.2⟩
        rcases h with ⟨h1, _⟩
        split
        · rename_i ha
          rw [ha] at h1
          simp only [if_pos rfl] at h1
          exact noClose_pyStripRight h1
        · rfl

theorem stAux_of_pnc :
    ∀ (n : Nat) (r : List Char), r.length ≤ n →
      (pnc r = true → stAux none r = r) ∧
      (∀ buf, noClose r = true → pnc r = true →
        stAux (some buf) r = '<' :: (buf.reverse ++ r)) := by
  intro n
  induction n with
  | zero =>
      intro r hr
      have : r = [] := List.length_eq_zero.mp (Nat.le_zero.mp hr)
      subst this
      exact ⟨fun _ => rfl, fun buf _ _ => by simp [stAux]⟩
  | succ n ih =>
      intro r hr
      cases r with
      | nil => exact ⟨fun _ => rfl, fun buf _ _ => by simp [stAux]⟩
      | cons a t =>
          have ht : t.length ≤ n := Nat.le_of_succ_le_succ hr
          constructor
          · intro hp
            simp only [pnc, Bool.and_eq_true] at hp
            by_cases ha : a = '<'
            · subst ha
              simp only [stAux, if_pos rfl]
              rw [if_pos rfl] at hp
              have h2 := (ih t ht).2 [] hp.1 hp.2
              simpa using h2
            · simp only [stAux, if_neg ha]
              rw [(ih t ht).1 hp.2]
          · intro buf hc hp
            simp only [noClose] at hc
            simp only [pnc, Bool.and_eq_true] at hp
            by_cases hgt : a = '>'
            · rw [if_pos hgt] at hc
              exact absurd hc (by simp)
            · rw [if_neg hgt] at hc
              by_cases hnl : a = '\n'
              · subst hnl
                simp only [stAux, if_neg (by decide : ¬('\n' = '>')), if_pos rfl]
                rw [(ih t ht).1 hp.2]
                simp
              · rw [if_neg hnl] at hc
                simp only [stAux, if_neg hgt, if_neg hnl]
                have h2 := (ih t ht).2 (a :: buf) hc hp.2
                rw [h2]
                simp

theorem stripTemplates_of_pnc {l : List Char} (h : pnc l = true) :
    stAux none l = l :=
  (stAux_of_pnc l.length l (Nat.le_refl _)).1 h

theorem pyStripRight_shape (a : Char) (t : List Char) :
    pyStripRight (a :: t) = [] ∨ ∃ r, pyStripRight (a :: t) = a :: r := by
  simp only [pyStripRight]
  split
  · exact Or.inl rfl
  · exact Or.inr ⟨_, rfl⟩

theorem pyStripRight_idem : ∀ (l : List Char), pyStripRight (pyStripRight l) = pyStripRight l := by
  intro l
  induction l with
  | nil => rfl
  | cons a t ih =>
      by_cases hcond : pyStripRight t = [] ∧ isPyWs a
      · rw [show pyStripRight (a :: t) = [] from by simp only [pyStripRight]; rw [if_pos hcond]]
        rfl
      · have he : pyStripRight (a :: t) = a :: pyStripRight t := by
          simp only [pyStripRight]; rw [if_neg hcond]
        rw [he]
        simp only [pyStripRight, ih]
        rw [if_neg hcond]

theorem dropWhile_shape (p : Char → Bool) :
    ∀ (l : List Char), l.dropWhile p = [] ∨ ∃ c t, l.dropWhile p = c :: t ∧ p c = false := by
  intro l
  induction l with
  | nil => exact Or.inl rfl
  | cons a t ih =>
      by_cases hp : p a
      · simpa [List.dropWhile, hp] using ih
      · exact Or.inr ⟨a, t, by simp [List.dropWhile, hp], by simp [hp]⟩

theorem pyStripL_idem (l : List Char) : pyStripL (pyStripL l) = pyStripL l := by
  unfold pyStripL
  rcases dropWhile_shape isPyWs l with h0 | ⟨c, t, he, hc⟩
  · rw [h0]; rfl
  · rw [he]
    rcases pyStripRight_shape c t with h1 | ⟨r, h2⟩
    · rw [h1]; rfl
    · rw [h2]
      have hd : (c :: r).dropWhile isPyWs = c :: r := by simp [List.dropWhile, hc]
      rw [hd]
      have h3 := pyStripRight_idem (c :: t)
      rw [h2] at h3
      exact h3

theorem amp_not_mem_stripAmp (s : String) : '&' ∉ (stripAmp s).data := by
  intro h
  have h2 := List.mem_filter.mp h
  simp at h2

theorem stripAmp_fixed {s : String} (h : '&' ∉ s.data) : stripAmp s = s := by
  show String.mk (s.data.filter fun c => c ≠ '&') = s
  have h2 : (s.data.filter fun c => c ≠ '&') = s.data := by
    refine List.filter_eq_self.mpr ?_
    intro a ha
    simp only [ne_eq, decide_eq_true_eq]
    rintro rfl
    exact h ha
  rw [h2]

/-! ## The generic output of `translate_cpp_to_py` is a fixed point of
every stripping pass -/
theorem amp_not_mem_transT4 (x : String) : '&' ∉ (transT4 x).data := by
  intro h
  have h1 : '&' ∈ stAux none (transT2 x).data := mem_pyStripL h
  rcases mem_stAux _ none h1 with h3 | h4 | ⟨buf, hb, _⟩
  · exact amp_not_mem_stripAmp _ h3
  · simp at h4
  · cases hb

theorem pnc_transT4 (x : String) : pnc (transT4 x).data = true := by
  have h1 : pnc (stAux none (transT2 x).data) = true :=
    pnc_stAux _ none (by intro buf hb; cases hb)
  exact pnc_pyStripRight (pnc_dropWhile h1)

theorem pyStrip_transT4 (x : String) : pyStrip (transT4 x) = transT4 x := by
  show String.mk (pyStripL (transT4 x).data) = transT4 x
  have h1 : pyStripL (transT4 x).data = (transT4 x).data := by
    show pyStripL (pyStripL (stripTemplates (transT2 x)).data) = _
    exact pyStripL_idem _
  rw [h1]

theorem stripTemplates_transT4 (x : String) : stripTemplates (transT4 x) = transT4 x := by
  show String.mk (stAux none (transT4 x).data) = transT4 x
  rw [stripTemplates_of_pnc (pnc_transT4 x)]

theorem stripAmp_transT4 (x : String) : stripAmp (transT4 x) = transT4 x :=
  stripAmp_fixed (amp_not_mem_transT4 x)

/-- A string that is a fixed point of all four passes and matches none of the
substitution rules is a fixed point of the whole translator. -/
theorem translate_fixed {y : String}
    (h1 : stripConstTokens y = y) (h2 : stripAmp y = y)
    (h3 : stripTemplates y = y) (h4 : pyStrip y = y)
    (n1 : y ≠ "std::out_of_range") (n2 : y ≠ "std::bad_alloc")
    (n3 : y ≠ "std::length_error") (n4 : y ≠ "LibsemigroupsException")
    (n5 : ¬(y = "size_t" ∨ y = "uint32_t" ∨ y = "size_type" ∨ y = "uint64_t"))
    (n6 : ¬(y = "this" ∨ y = "*this"))
    (n7 : y ≠ "true") (n8 : y ≠ "false") (n9 : y ≠ "void")
    (n10 : y ≠ "std::vector") (n11 : subStr "iterator" y = false) :
    translate_cpp_to_py y = y := by
  have e2 : transT2 y = y := by rw [transT2, h1, h2]
  have e4 : transT4 y = y := by rw [transT4, e2, h3, h4]
  have nvec : y ≠ "std::vector<uint8_t>" := by
    intro hv
    rw [hv] at h3
    exact absurd h3 (by decide)
  unfold translate_cpp_to_py
  simp only [e2, e4]
  rw [if_neg nvec, if_neg n1, if_neg n2, if_neg n3, if_neg n4, if_neg n5, if_neg n6,
    if_neg n7, if_neg n8, if_neg n9, if_neg n10, if_neg (by simp [n11])]

/-- C1, counterexample.  The claim asserts idempotence for every
type-expression string; it fails at `con&st`: the first call removes the
ampersand, reassembling a standalone `const` token that the second call then
deletes. -/
theorem C1_counterexample :
    translate_cpp_to_py (translate_cpp_to_py "con&st") ≠ translate_cpp_to_py "con&st" := by
  decide

/-- C1, amended: `translate_cpp_to_py` is idempotent on every input whose
translation contains no standalone `const` token (equivalently, on which the
`const`-removal pass acts as the identity).  The original universal claim is
false only for inputs whose translation reassembles such a token. -/
theorem C1_amended_idempotent (x : String)
    (h : stripConstTokens (translate_cpp_to_py x) = translate_cpp_to_py x) :
    translate_cpp_to_py (translate_cpp_to_py x) = translate_cpp_to_py x := by
  by_cases hv : transT2 x = "std::vector<uint8_t>"
  · have hx : translate_cpp_to_py x = "list[int]" := by simp [translate_cpp_to_py, hv]
    rw [hx]; decide
  · by_cases c1 : transT4 x = "std::out_of_range"
    · have hx : translate_cpp_to_py x = "IndexError" := by
        simp [translate_cpp_to_py, hv, c1]
      rw [hx]; decide
    · by_cases c2 : transT4 x = "std::bad_alloc"
      · have hx : translate_cpp_to_py x = "MemoryError" := by
          simp [translate_cpp_to_py, hv, c1, c2]
        rw [hx]; decide
      · by_cases c3 : transT4 x = "std::length_error"
        · have hx : translate_cpp_to_py x = "ValueError" := by
            simp [translate_cpp_to_py, hv, c1, c2, c3]
          rw [hx]; decide
        · by_cases c4 : transT4 x = "LibsemigroupsException"
          · have hx : translate_cpp_to_py x = "LibsemigroupsError" := by
              simp [translate_cpp_to_py, hv, c1, c2, c3, c4]
            rw [hx]; decide
          · by_cases c5 : transT4 x = "size_t" ∨ transT4 x = "uint32_t" ∨
                transT4 x = "size_type" ∨ transT4 x = "uint64_t"
            · have hx : translate_cpp_to_py x = "int" := by
                simp [translate_cpp_to_py, hv, c1, c2, c3, c4, c5]
              rw [hx]; decide
            · by_cases c6 : transT4 x = "this" ∨ transT4 x = "*this"
              · have hx : translate_cpp_to_py x = "self" := by
                  simp [translate_cpp_to_py, hv, c1, c2, c3, c4, c5, c6]
                rw [hx]; decide
              · by_cases c7 : transT4 x = "true"
                · have hx : translate_cpp_to_py x = "True" := by
                    simp [translate_cpp_to_py, hv, c1, c2, c3, c4, c5, c6, c7]
                  rw [hx]; decide
                · by_cases c8 : transT4 x = "false"
                  · have hx : translate_cpp_to_py x = "False" := by
                      simp [translate_cpp_to_py, hv, c1, c2, c3, c4, c5, c6, c7, c8]
                    rw [hx]; decide
                  · by_cases c9 : transT4 x = "void"
                    · have hx : translate_cpp_to_py x = "None" := by
                        simp [translate_cpp_to_py, hv, c1, c2, c3, c4, c5, c6, c7, c8, c9]
                      rw [hx]; decide
                    · by_cases c10 : transT4 x = "std::vector"
                      · have hx : translate_cpp_to_py x = "list" := by
                          simp [translate_cpp_to_py, hv, c1, c2, c3, c4, c5, c6, c7, c8,
                            c9, c10]
                        rw [hx]; decide
                      · cases hc : subStr "iterator" (transT4 x) with
                        | true =>
                            have hx : translate_cpp_to_py x = "Iterator" := by
                              simp [translate_cpp_to_py, hv, c1, c2, c3, c4, c5, c6, c7,
                                c8, c9, c10, hc]
                            rw [hx]; decide
                        | false =>
                            have hx : translate_cpp_to_py x = transT4 x := by
                              simp [translate_cpp_to_py, hv, c1, c2, c3, c4, c5, c6, c7,
                                c8, c9, c10, hc]
                            rw [hx] at h ⊢
                            exact translate_fixed h (stripAmp_transT4 x)
                              (stripTemplates_transT4 x) (pyStrip_transT4 x)
                              c1 c2 c3 c4 c5 c6 c7 c8 c9 c10 hc

/-- C1, witness for the amended theorem at the concrete input
`size_t const &`, whose translation is `int`. -/
theorem C1_witness :
    stripConstTokens (translate_cpp_to_py "size_t const &") =
      translate_cpp_to_py "size_t const &" ∧
    translate_cpp_to_py (translate_cpp_to_py "size_t const &") =
      translate_cpp_to_py "size_t const &" :=
  ⟨by decide, C1_amended_idempotent "size_t const &" (by decide)⟩

example :
    convert_to_rst 9 (Node.elem "para" [] [Node.txt "hello"]) ["x"] =
      .ok (" hello", ["x"]) := by decide

example :
    convert_to_rst 9 (Node.elem "enum" [] []) ["para"] = .ok ("", []) := by decide

example : mangleName "libsemigroups::ToddCoxeter" =
    "libsemigroups_1_1_todd_coxeter" := by decide

example : mangleName "my_ns::AClass" = "my__ns_1_1_a_class" := by decide

example :
    pybind11_fn 20 fooThing "baz" "int" =
      .ok "thing.def(\"baz\", \n&Foo::baz,\npy::arg(\"x\"),\nR\"pbdoc(\n\n)pbdoc\");\n" := by
  decide

example :
    pybind11_fn 20 fooThing "bar" "int" =
      .ok ("thing.def(\"bar\", \n[](Foo& self, int x) \x7b\nreturn self.bar(x);\n\x7d" ++
        ",\npy::arg(\"x\"),\nR\"pbdoc(\n\n)pbdoc\");\n") := by
  decide

/-! ## C3: the doxygen filename derivation and probing order -/
theorem underscoreLower_eq (l : List Char) :
    underscoreLower l = (insertBeforeUpper l).map Char.toLower := by
  induction l with
  | nil => rfl
  | cons c rest ih =>
      by_cases hc : c.isUpper
      · simp only [underscoreLower, insertBeforeUpper, if_pos hc, List.map, ih]
        rw [show Char.toLower '_' = '_' from rfl]
      · simp only [underscoreLower, insertBeforeUpper, if_neg hc, List.map, ih]

theorem mangle_agrees (thing : String) : mangleName thing = mangleSpec thing := by
  simp [mangleName, mangleSpec, underscoreLower_eq]

theorem probe_eq_find (ex : String → Bool) (mangled : String) :
    ∀ pres : List String,
      probeCandidates ex mangled pres =
        (pres.map (fun pre => "docs/xml/" ++ pre ++ mangled ++ ".xml")).find? ex := by
  intro pres
  induction pres with
  | nil => rfl
  | cons a rest ih =>
      simp only [probeCandidates, List.map]
      by_cases h : ex ("docs/xml/" ++ a ++ mangled ++ ".xml")
      · rw [List.find?_cons_of_pos _ h, if_pos h]
      · rw [List.find?_cons_of_neg _ (by simp [h]), if_neg (by simp [h]), ih]

/-- C3: for every scope name the schema filename is derived by doubling the
underscores, replacing each `::` by the infix `_1_1`, inserting an
underscore before every uppercase letter and lowercasing; the three
candidates prefixed `class`, `struct`, `namespace` are probed in exactly
that order and the first existing file is used (otherwise the empty string
with a missing-schema warning).  The model is a pure function of the name
and the existence oracle (the script memoizes it with `@cache`), so
repeated calls agree by construction. -/
theorem C3_filename_probe (ex : String → Bool) (thing : String) :
    doxygen_filenameD ex thing =
      (match (candidates thing).find? ex with
       | some f => (f, [])
       | none => ("", [Diag.missingSchema thing])) ∧
    candidates thing =
      ["docs/xml/class" ++ mangleSpec thing ++ ".xml",
       "docs/xml/struct" ++ mangleSpec thing ++ ".xml",
       "docs/xml/namespace" ++ mangleSpec thing ++ ".xml"] := by
  constructor
  · unfold doxygen_filenameD
    rw [mangle_agrees, probe_eq_find]
    rfl
  · rfl

/-! ## C8: a missing schema file warns, emits nothing, and the run
continues -/

/-- C8: when none of the three candidate schema filenames exists, the scope
produces a missing-schema warning on the diagnostic stream and an empty
body, the result is an `ok` value (no exception propagates), and the main
loop continues with the remaining scopes unchanged. -/
theorem C8_missing_schema (ex : String → Bool) (db : String → Thing) (fuel : Nat)
    (thing : String) (rest : List String)
    (h1 : ex ("docs/xml/class" ++ mangleName thing ++ ".xml") = false)
    (h2 : ex ("docs/xml/struct" ++ mangleName thing ++ ".xml") = false)
    (h3 : ex ("docs/xml/namespace" ++ mangleName thing ++ ".xml") = false) :
    generateD ex db fuel thing = .ok ("", [Diag.missingSchema thing]) ∧
    runAll ex db fuel (thing :: rest) =
      (runAll ex db fuel rest).map
        (fun l => ("", [Diag.missingSchema thing]) :: l) := by
  have hp : doxygen_filenameD ex thing = ("", [Diag.missingSchema thing]) := by
    simp [doxygen_filenameD, probeCandidates, h1, h2, h3]
  have hg : generateD ex db fuel thing = .ok ("", [Diag.missingSchema thing]) := by
    simp [generateD, hp]
  refine ⟨hg, ?_⟩
  simp only [runAll, hg]
  cases hr : runAll ex db fuel rest <;>
    simp [Except.map, Bind.bind, Except.bind, Pure.pure, Except.pure]

/-- C8, witness: with an oracle under which no file exists, the scope `Foo`
yields an empty body and a warning, and a one-element run returns `ok`. -/
theorem C8_witness :
    generateD (fun _ => false) (fun _ => emptyThing) 5 "Foo" =
      .ok ("", [Diag.missingSchema "Foo"]) ∧
    runAll (fun _ => false) (fun _ => emptyThing) 5 ["Foo"] =
      .ok [("", [Diag.missingSchema "Foo"])] := by
  have h := C8_missing_schema (fun _ => false) (fun _ => emptyThing) 5 "Foo" []
    rfl rfl rfl
  exact ⟨h.1, by rw [h.2]; rfl⟩

/-! ## C10 and the emitted-statement bookkeeping -/
theorem emitOverloads_mem {fuel : Nat} {t : Thing} {fn : String} :
    ∀ {ovs : List (String × Member)} {l : List ((String × String) × String)},
      emitOverloads fuel t fn ovs = .ok l →
      ∀ {fn0 p0 : String} {s : String}, ((fn0, p0), s) ∈ l →
        fn0 = fn ∧ skip_fn t fn0 p0 = .ok false ∧ pybind11_fn fuel t fn0 p0 = .ok s := by
  intro ovs
  induction ovs with
  | nil =>
      intro l he fn0 p0 s hmem
      simp only [emitOverloads] at he
      cases he
      simp at hmem
  | cons pm rest ih =>
      intro l he fn0 p0 s hmem
      simp only [emitOverloads, Bind.bind, Except.bind] at he
      cases hsk : skip_fn t fn pm.1 with
      | error e => rw [hsk] at he; cases he
      | ok sk =>
          rw [hsk] at he
          cases sk with
          | true => exact ih he hmem
          | false =>
              simp only at he
              cases hfn : pybind11_fn fuel t fn pm.1 with
              | error e => rw [hfn] at he; cases he
              | ok s1 =>
                  rw [hfn] at he
                  cases htl : emitOverloads fuel t fn rest with
                  | error e => rw [htl] at he; cases he
                  | ok l2 =>
                      rw [htl] at he
                      cases he
                      rcases List.mem_cons.mp hmem with h1 | h2
                      · injection h1 with h1a h1b
                        injection h1a with h1c h1d
                        subst h1c; subst h1d; subst h1b
                        exact ⟨rfl, hsk, hfn⟩
                      · exact ih htl h2

theorem emitAll_mem {fuel : Nat} {t : Thing} :
    ∀ {fns : List (String × List (String × Member))}
      {l : List ((String × String) × String)},
      emitAll fuel t fns = .ok l →
      ∀ {fn p : String} {s : String}, ((fn, p), s) ∈ l →
        skip_fn t fn p = .ok false ∧ pybind11_fn fuel t fn p = .ok s := by
  intro fns
  induction fns with
  | nil =>
      intro l he fn p s hmem
      simp only [emitAll] at he
      cases he
      simp at hmem
  | cons fo rest ih =>
      intro l he fn p s hmem
      simp only [emitAll, Bind.bind, Except.bind] at he
      cases hh : emitOverloads fuel t fo.1 fo.2 with
      | error e => rw [hh] at he; cases he
      | ok h1 =>
          rw [hh] at he
          cases hr : emitAll fuel t rest with
          | error e => rw [hr] at he; cases he
          | ok l2 =>
              rw [hr] at he
              cases he
              rcases List.mem_append.mp hmem with hm1 | hm2
              · rcases emitOverloads_mem hh hm1 with ⟨_, hsk, hfn⟩
                exact ⟨hsk, hfn⟩
              · exact ih hr hm2

/-- C10 (implicit): any member whose name merely begins with `end` or
`cend` is rejected by the skip predicate — a pure name-prefix test, with no
check that a matching `begin` member exists — and therefore never
contributes a binding statement. -/
theorem skip_fn_ends_skipped (t : Thing) (fn p : String)
    (h : strStarts "end" fn = true ∨ strStarts "cend" fn = true) :
    skip_fn t fn p = .ok true := by
  unfold skip_fn
  rcases h with h | h <;> split_ifs <;> simp_all

theorem C10_end_prefix_skipped (fuel : Nat) (t : Thing) (fn p : String)
    (h : strStarts "end" fn = true ∨ strStarts "cend" fn = true) :
    skip_fn t fn p = .ok true ∧
    (∀ l, generateStmts fuel t = .ok l → ∀ s, ((fn, p), s) ∉ l) := by
  have hskip : skip_fn t fn p = .ok true := skip_fn_ends_skipped t fn p h
  refine ⟨hskip, ?_⟩
  intro l he s hmem
  rcases emitAll_mem he hmem with ⟨hsk, _⟩
  rw [hskip] at hsk
  cases hsk

/-- C10, witness: the member `endomorphisms` (no `begin` partner exists in
the scope) is skipped purely because of its name. -/
theorem C10_witness : skip_fn endoThing "endomorphisms" "" = .ok true :=
  (C10_end_prefix_skipped 20 endoThing "endomorphisms" "" (Or.inl (by decide))).1

/-! ## C7: the pointer rules of the skip predicate -/

/-- C7, counterexample.  The claim says a member with a pointer return type
is still eligible when it matches the whitelisted callback signature
`bool(*)()`.  In the code the whitelist exempts only the parameter string;
a pointer in the return type always skips: this member has exactly the
whitelisted parameter signature and is skipped nonetheless. -/
theorem C7_counterexample :
    pyStrip "bool(*)()" = "bool(*)()" ∧
    return_type ptrThing "foo" "bool(*)()" = .ok "int *" ∧
    subStr "*" "int *" = true ∧
    strEnds "_no_checks" "foo" = false ∧
    subStr "initializer_list" "bool(*)()" = false ∧
    strStarts "cend" "foo" = false ∧
    strStarts "end" "foo" = false ∧
    subStr "&&" "bool(*)()" = false ∧
    is_public ptrThing "foo" "bool(*)()" = .ok true ∧
    is_deleted_mem_fn ptrThing "foo" "bool(*)()" = .ok false ∧
    is_typedef ptrThing "foo" "bool(*)()" = .ok false ∧
    skip_fn ptrThing "foo" "bool(*)()" = .ok true := by
  decide

/-- C7, amended: the skip predicate excludes every member whose return-type
expression contains a pointer, unconditionally; the `bool(*)()` whitelist
applies to the parameter string instead (parameters containing `*` are
excluded unless the stripped parameter string is exactly `bool(*)()`), and
a member that passes every clause of the predicate — including one whose
parameter string is exactly the whitelisted callback signature — is
eligible. -/
theorem C7_pointer_rules (t : Thing) (fn p : String) :
    (∀ rt, return_type t fn p = .ok rt → subStr "*" rt = true →
      skip_fn t fn p = .ok true) ∧
    (subStr "*" p = true → pyStrip p ≠ "bool(*)()" → skip_fn t fn p = .ok true) ∧
    (∀ rt, return_type t fn p = .ok rt → subStr "*" rt = false →
      is_typedef t fn p = .ok false →
      is_deleted_mem_fn t fn p = .ok false →
      is_public t fn p = .ok true →
      strEnds "_no_checks" fn = false →
      subStr "initializer_list" p = false →
      strStarts "cend" fn = false →
      strStarts "end" fn = false →
      ¬(fn = "operator=" ∨ fn = "operator[]" ∨ fn = "operator<<") →
      subStr "&&" p = false →
      (subStr "*" p = true → pyStrip p = "bool(*)()") →
      skip_fn t fn p = .ok false) := by
  refine ⟨?_, ?_, ?_⟩
  · intro rt hrt hstar
    unfold skip_fn
    split_ifs <;> try rfl
    unfold skip_fnTail
    rw [hrt]
    simp only [Bind.bind, Except.bind]
    rw [if_pos hstar]
  · intro hp hw
    unfold skip_fn
    split_ifs with g1 g2 g3 g4 g5 g6 g7 <;> try rfl
    exact absurd ⟨hp, hw⟩ g7
  · intro rt hrt hstar htd hdel hpub hn1 hn2 hn3 hn4 hn5 hn6 hn7
    have hgx : ∃ m, getXml t fn p = .ok m := by
      cases hg : getXml t fn p with
      | error e =>
          unfold return_type at hrt
          simp [Bind.bind, Except.bind, hg] at hrt
      | ok m => exact ⟨m, rfl⟩
    rcases hgx with ⟨m, hm⟩
    unfold skip_fn
    rw [if_neg (by simp [hn1]), if_neg (by simp [hn2]), if_neg (by simp [hn3]),
      if_neg (by simp [hn4]), if_neg hn5, if_neg (by simp [hn6]),
      if_neg (by intro hc; exact absurd (hn7 hc.1) hc.2)]
    unfold skip_fnTail
    rw [hrt]
    simp only [Bind.bind, Except.bind]
    rw [if_neg (by simp [hstar]), htd]
    simp only
    rw [if_neg (by simp), hm]
    simp only
    rw [hdel]
    simp only
    rw [if_neg (by simp), hpub]
    rfl

/-- C7, witness for the amended theorem: a member with the whitelisted
callback parameter signature and a pointer-free return type passes the
skip predicate. -/
theorem C7_witness : skip_fn cleanThing "good" "bool(*)()" = .ok false :=
  (C7_pointer_rules cleanThing "good" "bool(*)()").2.2 "void" (by decide) (by decide)
    (by decide) (by decide) (by decide) (by decide) (by decide) (by decide) (by decide)
    (by decide) (by decide) (by decide)

/-- C6, counterexample.  The claim says the constructor rule is evaluated
before the schema `kind` attribute, so a constructor-named member with kind
`enum` would be emitted as a constructor.  In `pybind11_fn` the
`is_enum and is_public` test comes first: this public enum member named
`Foobar` in scope `Foo` is emitted as a `py::enum_` binding, not as a
`py::init` constructor. -/
theorem C6_counterexample :
    is_constructor enumThing.name "Foobar" = true ∧
    is_enum enumThing "Foobar" "" = .ok true ∧
    is_public enumThing "Foobar" "" = .ok true ∧
    pybind11_fn 20 enumThing "Foobar" "" =
      .ok "py::enum_<Foo::Foobar>(m, \"Foo__Foobar\", R\"pbdoc(\n\n)pbdoc\");\n" ∧
    (.ok "py::enum_<Foo::Foobar>(m, \"Foo__Foobar\", R\"pbdoc(\n\n)pbdoc\");\n" :
        PyRes String) ≠
      .ok "thing.def(py::init<>());\n" := by
  decide

/-- C6, amended: `pybind11_fn` checks `is_enum` together with `is_public`
before the constructor rule.  A member whose name begins with the scope's
unqualified name is emitted as an enum when its kind is `enum` and it is
public; it is emitted as a constructor when its kind is not `enum`, or when
it is an enum but not public (abstract scopes aside). -/
theorem C6_enum_beats_constructor (fuel : Nat) (t : Thing) (fn p : String)
    (hc : is_constructor t.name fn = true) :
    (is_enum t fn p = .ok true → is_public t fn p = .ok true →
      pybind11_fn fuel t fn p = pybind11_enum fuel t fn p) ∧
    (is_enum t fn p = .ok false → is_abstract_class t = false →
      pybind11_fn fuel t fn p =
        .ok ("thing.def(py::init<" ++
          (if is_class_template t then replaceOcc (shortname t.name) (shortname_ t) p
           else p) ++ ">());\n")) ∧
    (is_enum t fn p = .ok true → is_public t fn p = .ok false →
      is_abstract_class t = false →
      pybind11_fn fuel t fn p =
        .ok ("thing.def(py::init<" ++
          (if is_class_template t then replaceOcc (shortname t.name) (shortname_ t) p
           else p) ++ ">());\n")) := by
  refine ⟨?_, ?_, ?_⟩
  · intro he hp
    simp [pybind11_fn, he, hp, Bind.bind, Except.bind]
  · intro he ha
    simp [pybind11_fn, pybind11_fnRest, he, hc, ha, Bind.bind, Except.bind]
  · intro he hp ha
    simp [pybind11_fn, pybind11_fnRest, he, hp, hc, ha, Bind.bind, Except.bind]

/-- C6, witness for the amended theorem: the non-enum constructor overload
`Foo(int)` is emitted as a `py::init` statement. -/
theorem C6_witness :
    pybind11_fn 20 ctorThing "Foo" "int" =
      .ok ("thing.def(py::init<" ++
        (if is_class_template ctorThing then
          replaceOcc (shortname ctorThing.name) (shortname_ ctorThing) "int"
         else "int") ++ ">());\n") :=
  (C6_enum_beats_constructor 20 ctorThing "Foo" "int" (by decide)).2.1 (by decide)
    (by decide)

/-! ## C5: abstract scopes emit no constructor statement -/
theorem strData_append (a b : String) : (a ++ b).data = a.data ++ b.data := rfl

theorem stringDataInj {a b : String} (h : a.data = b.data) : a = b := by
  cases a with
  | mk da =>
      cases b with
      | mk db =>
          simp only at h
          rw [h]

theorem strAppend_assoc (a b c : String) : a ++ b ++ c = a ++ (b ++ c) := by
  apply stringDataInj
  simp [strData_append, List.append_assoc]

theorem bind_ok_inv {α β : Type} {x : PyRes α} {f : α → PyRes β} {b : β}
    (h : x >>= f = .ok b) : ∃ a, x = .ok a ∧ f a = .ok b := by
  cases x with
  | error e => simp [Bind.bind, Except.bind] at h
  | ok a => exact ⟨a, rfl, by simpa [Bind.bind, Except.bind] using h⟩

theorem finishDef_ok_inv {fuel : Nat} {t : Thing} {fn p pyName func s : String}
    (h : finishDef fuel t fn p pyName func = .ok s) :
    ∃ (pns : String) (st : Bool) (doc : String),
      s = defStmt (if st then "def_static" else "def") pyName func pns doc := by
  unfold finishDef at h
  rcases bind_ok_inv h with ⟨pns, _, h⟩
  rcases bind_ok_inv h with ⟨st, _, h⟩
  rcases bind_ok_inv h with ⟨doc, _, h⟩
  injection h with hs
  exact ⟨pns, st, doc, hs.symm⟩

theorem defStmt_not_init_q (pyName func pns doc : String) (st : Bool)
    (hq : ∃ qd, pyName.data = '"' :: qd) :
    strStarts "thing.def(py::init"
      (defStmt (if st then "def_static" else "def") pyName func pns doc) = false := by
  rcases hq with ⟨qd, hq⟩
  cases hp : pyName
  rw [hp] at hq
  simp only at hq
  subst hq
  cases st <;> (unfold defStmt; split <;> rfl)

theorem defStmt_not_init_nil (func pns doc : String) (st : Bool) :
    strStarts "thing.def(py::init"
      (defStmt (if st then "def_static" else "def") "" func pns doc) = false := by
  cases st <;> (unfold defStmt; split <;> rfl)

theorem pybind11_enum_not_init {fuel : Nat} {t : Thing} {fn p s : String}
    (h : pybind11_enum fuel t fn p = .ok s) :
    strStarts "thing.def(py::init" s = false := by
  unfold pybind11_enum at h
  rcases bind_ok_inv h with ⟨doc, _, h⟩
  rcases bind_ok_inv h with ⟨m, _, h⟩
  rcases bind_ok_inv h with ⟨body, _, h⟩
  injection h with hs
  subst hs
  rfl

theorem pybind11_fnRest_abs_no_init {fuel : Nat} {t : Thing} {fn p s : String}
    (habs : is_abstract_class t = true)
    (h : pybind11_fnRest fuel t fn p = .ok s) :
    strStarts "thing.def(py::init" s = false := by
  unfold pybind11_fnRest at h
  by_cases hctor : is_constructor t.name fn = true
  · rw [if_pos hctor, if_pos habs] at h
    injection h with hs
    subst hs
    rfl
  · rw [if_neg hctor] at h
    rcases bind_ok_inv h with ⟨ov, _, h⟩
    by_cases hit : (ov || is_iterator fn) = true
    · rw [if_pos hit] at h
      rcases bind_ok_inv h with ⟨sigL, _, h⟩
      rcases bind_ok_inv h with ⟨sig, _, h⟩
      rcases bind_ok_inv h with ⟨pnL, _, h⟩
      rcases finishDef_ok_inv h with ⟨pns, st, doc, hs⟩
      subst hs
      by_cases hi : is_iterator fn = true
      · rw [if_pos hi]
        exact defStmt_not_init_q _ _ _ _ st ⟨_, rfl⟩
      · rw [if_neg hi]
        exact defStmt_not_init_q _ _ _ _ st ⟨_, rfl⟩
    · rw [if_neg hit] at h
      by_cases hop : is_operator fn = true
      · rw [if_pos hop] at h
        rcases finishDef_ok_inv h with ⟨pns, st, doc, hs⟩
        subst hs
        exact defStmt_not_init_nil _ _ _ st
      · rw [if_neg hop] at h
        rcases finishDef_ok_inv h with ⟨pns, st, doc, hs⟩
        subst hs
        exact defStmt_not_init_q _ _ _ _ st ⟨_, rfl⟩

theorem pybind11_fn_abs_no_init {fuel : Nat} {t : Thing} {fn p s : String}
    (habs : is_abstract_class t = true)
    (h : pybind11_fn fuel t fn p = .ok s) :
    strStarts "thing.def(py::init" s = false := by
  unfold pybind11_fn at h
  rcases bind_ok_inv h with ⟨en, _, h⟩
  cases en with
  | true =>
      rw [if_pos rfl] at h
      rcases bind_ok_inv h with ⟨pub, _, h⟩
      cases pub with
      | true =>
          rw [if_pos rfl] at h
          exact pybind11_enum_not_init h
      | false =>
          rw [if_neg (by simp)] at h
          exact pybind11_fnRest_abs_no_init habs h
  | false =>
      rw [if_neg (by simp)] at h
      exact pybind11_fnRest_abs_no_init habs h

/-- C5: for an abstract scope the generated output contains zero
constructor statements: the default `__repr__` line is suppressed and no
emitted binding statement is a `py::init` binding, regardless of how many
constructor overloads the schema records (constructor overloads emit the
empty string; every other branch emits an enum or `thing.def` statement
that is not an init statement). -/
theorem C5_abstract_no_init (fuel : Nat) (t : Thing)
    (habs : is_abstract_class t = true) :
    pybind11_default_repr t = "" ∧
    ∀ l, generateStmts fuel t = .ok l →
      ∀ e ∈ l, strStarts "thing.def(py::init" e.2 = false := by
  refine ⟨by simp [pybind11_default_repr, habs], ?_⟩
  intro l he e hmem
  rcases e with ⟨⟨fn, p⟩, s⟩
  rcases emitAll_mem he hmem with ⟨_, hfn⟩
  exact pybind11_fn_abs_no_init habs hfn

/-- C5, witness: the abstract scope with two constructor overloads emits
no `__repr__` line, and its emitted statement list (two empty strings)
contains no init statement. -/
theorem C5_witness :
    pybind11_default_repr absThing = "" ∧
    strStarts "thing.def(py::init" ((("Foo", "int"), "") : (String × String) × String).2
      = false :=
  ⟨(C5_abstract_no_init 20 absThing rfl).1,
   (C5_abstract_no_init 20 absThing rfl).2 [(("Foo", "int"), ""), (("Foo", ""), "")]
     (by decide) (("Foo", "int"), "") (by decide)⟩

/-! ## C2: the overload-resolution strategy for plain members -/

/-- C2: for a member of a class scope that is not a constructor, operator,
enum or iterator and passes the skip predicate: with more than one recorded
overload the emitted binding is a generated forwarding lambda whose
parameter list is a const or non-const `self` reference (per the overload's
const qualifier) followed by the overload's declared parameters and whose
body forwards to the member call; with exactly one recorded overload it is
the plain qualified reference `&Scope::fn`. -/
theorem C2_overload_strategy (fuel : Nat) (t : Thing) (fn p : String)
    (pd : List (String × String)) (cq st : Bool) (doc : String)
    (hns : is_namespace t = false)
    (hen : is_enum t fn p = .ok false)
    (hctor : is_constructor t.name fn = false)
    (hop : is_operator fn = false)
    (hit : is_iterator fn = false)
    (_hskip : skip_fn t fn p = .ok false)
    (hpd : params_dict t fn p = .ok pd)
    (hcq : is_const_mem_fn t fn p = .ok cq)
    (hst : is_static_mem_fn t fn p = .ok st)
    (hdoc : pybind11_doc fuel t fn p = .ok doc) :
    (is_overloaded t fn = .ok true →
      pybind11_fn fuel t fn p = .ok (defStmt (if st then "def_static" else "def")
        ("\"" ++ shortname fn ++ "\", ")
        ("[](" ++ joinWith ", "
            ((if cq then shortname_ t ++ " const& self" else shortname_ t ++ "& self") ::
              pd.map (fun pr => pr.2 ++ " " ++ pr.1)) ++
          ") \x7b\nreturn " ++
          ("self." ++ fn ++ "(" ++ joinWith ", " (pd.map Prod.fst) ++ ")") ++ ";\n\x7d")
        (joinWith ", " ((pd.map Prod.fst).map (fun x => "py::arg(\"" ++ x ++ "\")")))
        doc)) ∧
    (is_overloaded t fn = .ok false →
      pybind11_fn fuel t fn p = .ok (defStmt (if st then "def_static" else "def")
        ("\"" ++ shortname fn ++ "\", ")
        ("&" ++ shortname_ t ++ "::" ++ fn)
        (joinWith ", " ((pd.map Prod.fst).map (fun x => "py::arg(\"" ++ x ++ "\")")))
        doc)) := by
  constructor
  · intro hov
    simp [pybind11_fn, pybind11_fnRest, pybind11_fnSig, finishDef, pybind11_fn_params,
      fn_sig, param_names, hen, hctor, hop, hit, hov, hpd, hcq, hst, hdoc, hns,
      strAppend_assoc, Bind.bind, Except.bind, Pure.pure, Except.pure]
  · intro hov
    simp [pybind11_fn, pybind11_fnRest, pybind11_fnSig, finishDef, pybind11_fn_params,
      fn_sig, param_names, hen, hctor, hop, hit, hov, hpd, hcq, hst, hdoc, hns,
      strAppend_assoc, Bind.bind, Except.bind, Pure.pure, Except.pure]

/-- C2, witness: `bar` has two recorded overloads, so the `int` overload is
emitted as a forwarding lambda. -/
theorem C2_witness :
    pybind11_fn 20 fooThing "bar" "int" = .ok (defStmt "def"
      ("\"" ++ shortname "bar" ++ "\", ")
      ("[](" ++ joinWith ", "
          (("Foo& self") :: [("x", "int")].map (fun pr => pr.2 ++ " " ++ pr.1)) ++
        ") \x7b\nreturn " ++
        ("self." ++ "bar" ++ "(" ++ joinWith ", " ([("x", "int")].map Prod.fst) ++ ")") ++
        ";\n\x7d")
      (joinWith ", " (([("x", "int")].map Prod.fst).map
        (fun x => "py::arg(\"" ++ x ++ "\")")))
      "") := by
  have h := (C2_overload_strategy 20 fooThing "bar" "int" [("x", "int")] false false ""
    (by decide) (by decide) (by decide) (by decide) (by decide) (by decide) (by decide)
    (by decide) (by decide) (by decide)).1 (by decide)
  simpa using h

/-- C4: a member whose name begins with `end` or `cend` is never emitted as
an independent binding (the skip predicate rejects it), and every emitted
overload of a member whose name begins with `begin` or `cbegin` produces
exactly one combined statement: a single `thing.def` whose lambda body
wraps the begin call and the end call — the end name obtained by the
`begin`→`end` / `cbegin`→`cend` substitution with the same suffix — in one
`py::make_iterator`. -/
theorem C4_iterator_pairing (fuel : Nat) (t : Thing) (fn p : String) :
    ((strStarts "end" fn = true ∨ strStarts "cend" fn = true) →
      skip_fn t fn p = .ok true ∧
      (∀ l, generateStmts fuel t = .ok l → ∀ e ∈ l, e.1.1 ≠ fn)) ∧
    (is_iterator fn = true →
      ∀ (pd : List (String × String)) (cq st ovb : Bool) (doc : String),
        is_namespace t = false →
        is_enum t fn p = .ok false →
        is_constructor t.name fn = false →
        is_overloaded t fn = .ok ovb →
        params_dict t fn p = .ok pd →
        is_const_mem_fn t fn p = .ok cq →
        is_static_mem_fn t fn p = .ok st →
        pybind11_doc fuel t fn p = .ok doc →
        pybind11_fn fuel t fn p = .ok (defStmt (if st then "def_static" else "def")
          ("\"iterator" ++ underscoreSuffix fn ++ "\"")
          ("[](" ++ joinWith ", "
              ((if cq then shortname_ t ++ " const& self" else shortname_ t ++ "& self") ::
                pd.map (fun pr => pr.2 ++ " " ++ pr.1)) ++
            ") \x7b\nreturn " ++
            ("py::make_iterator(self." ++ fn ++ "(" ++ joinWith ", " (pd.map Prod.fst) ++
              "), self." ++ iteratorEndName fn ++ "(" ++ joinWith ", " (pd.map Prod.fst) ++
              "))") ++ ";\n\x7d")
          (joinWith ", " ((pd.map Prod.fst).map (fun x => "py::arg(\"" ++ x ++ "\")")))
          doc)) := by
  constructor
  · intro h
    have hskip : skip_fn t fn p = .ok true := skip_fn_ends_skipped t fn p h
    refine ⟨hskip, ?_⟩
    intro l he e hmem hfn
    rcases e with ⟨⟨fn0, p0⟩, s0⟩
    simp only at hfn
    subst hfn
    rcases emitAll_mem he hmem with ⟨hsk, _⟩
    rw [skip_fn_ends_skipped t _ _ h] at hsk
    cases hsk
  · intro hi pd cq st ovb doc hns hen hctor hov hpd hcq hst hdoc
    simp [pybind11_fn, pybind11_fnRest, pybind11_fnSig, finishDef, pybind11_fn_params,
      pybind11_iterator, fn_sig, param_names, hen, hctor, hi, hov, hpd, hcq, hst, hdoc,
      hns, strAppend_assoc, Bind.bind, Except.bind, Pure.pure, Except.pure]

/-- C4, witness: the single-overload member `begin_rules` is emitted as one
combined `py::make_iterator` statement named `iterator_rules` (its partner
`end_rules` is excluded by the first part of the theorem). -/
theorem C4_witness :
    pybind11_fn 20 iterThing "begin_rules" "" = .ok (defStmt "def"
      ("\"iterator" ++ underscoreSuffix "begin_rules" ++ "\"")
      ("[](" ++ joinWith ", " ["Foo& self"] ++ ") \x7b\nreturn " ++
        ("py::make_iterator(self." ++ "begin_rules" ++ "(" ++ joinWith ", " [] ++
          "), self." ++ iteratorEndName "begin_rules" ++ "(" ++ joinWith ", " [] ++
          "))") ++ ";\n\x7d")
      (joinWith ", " []) "") := by
  have h := (C4_iterator_pairing 20 iterThing "begin_rules" "").2 (by decide)
    [] false false false "" (by decide) (by decide) (by decide) (by decide) (by decide)
    (by decide) (by decide) (by decide)
  simpa using h

theorem goodTree_children {nm : String} {attrs : List (String × String)} {cs : List Node}
    (h : GoodTree (Node.elem nm attrs cs)) : ∀ c ∈ cs, GoodTree c := by
  cases h with
  | elem _ _ _ _ h2 => exact h2

theorem goodTree_name {nm : String} {attrs : List (String × String)} {cs : List Node}
    (h : GoodTree (Node.elem nm attrs cs)) :
    attrGet attrs "kind" = some "enum" ∨ nm ≠ "enum" := by
  cases h with
  | elem _ _ _ h1 _ => exact h1

theorem findAllW_good {nm : String} :
    ∀ (n : Nat) (ws : List Node) (l : List Node),
      (∀ w ∈ ws, GoodTree w) → findAllW nm n ws = some l → ∀ u ∈ l, GoodTree u := by
  intro n
  induction n with
  | zero =>
      intro ws l _ h
      simp [findAllW] at h
  | succ n ih =>
      intro ws l hws h
      cases ws with
      | nil =>
          simp only [findAllW, Option.some.injEq] at h
          subst h
          intro u hu
          simp at hu
      | cons w rest =>
          cases w with
          | txt s =>
              simp only [findAllW] at h
              exact ih rest l (fun v hv => hws v (List.mem_cons_of_mem _ hv)) h
          | elem en at0 cs =>
              simp only [findAllW] at h
              cases hf : findAllW nm n (cs ++ rest) with
              | none => rw [hf] at h; simp at h
              | some l0 =>
                  rw [hf] at h
                  simp only [Option.map, Option.some.injEq] at h
                  have hgood : GoodTree (Node.elem en at0 cs) :=
                    hws _ (List.mem_cons_self _ _)
                  have hcr : ∀ c ∈ cs ++ rest, GoodTree c := by
                    intro c hc
                    rcases List.mem_append.mp hc with hc | hc
                    · exact goodTree_children hgood c hc
                    · exact hws c (List.mem_cons_of_mem _ hc)
                  have hl0 := ih (cs ++ rest) l0 hcr hf
                  subst h
                  intro u hu
                  by_cases he : en = nm
                  · rw [if_pos he] at hu
                    rcases List.mem_cons.mp hu with hu | hu
                    · subst hu; exact hgood
                    · exact hl0 u hu
                  · rw [if_neg he] at hu
                    exact hl0 u hu

theorem findDesc_good {fuel : Nat} {nm : String} {x u : Node}
    (hx : GoodTree x) (h : findDesc fuel nm x = .ok (some u)) : GoodTree u := by
  cases x with
  | txt s => simp [findDesc] at h
  | elem en at0 cs =>
      simp only [findDesc] at h
      cases hf : findAllW nm fuel cs with
      | none => rw [hf] at h; simp [liftOpt, Except.map] at h
      | some l =>
          rw [hf] at h
          simp only [liftOpt, Except.map, Except.ok.injEq] at h
          have hu : u ∈ l := by
            cases l with
            | nil => simp at h
            | cons a t =>
                simp only [List.head?, Option.some.injEq] at h
                subst h
                exact List.mem_cons_self _ _
          exact findAllW_good fuel cs l (goodTree_children hx) hf u hu

theorem reorderEnum_good {attrs : List (String × String)} {cs items : List Node}
    (hcs : ∀ c ∈ cs, GoodTree c) (h : reorderEnum attrs cs = .ok items) :
    ∀ x ∈ items, GoodTree x := by
  unfold reorderEnum at h
  split at h
  · cases hf : cs.find? (isNamed "name") with
    | none => rw [hf] at h; cases h
    | some nnode =>
        rw [hf] at h
        simp only [Except.ok.injEq] at h
        subst h
        intro x hx
        rcases List.mem_cons.mp hx with hx | hx
        · subst hx
          exact hcs _ (List.mem_of_find?_eq_some hf)
        · rcases List.mem_cons.mp hx with hx | hx
          · subst hx
            cases hb : cs.find? (isNamed "briefdescription") with
            | none => simp [hb, Option.getD]; exact GoodTree.txt ""
            | some b =>
                simp only [hb, Option.getD]
                exact hcs _ (List.mem_of_find?_eq_some hb)
          · exact hcs _ (List.mem_filter.mp hx).1
  · simp only [Except.ok.injEq] at h
    subst h
    exact hcs

theorem reorder_good {nm : String} {attrs : List (String × String)} {cs items : List Node}
    (hcs : ∀ c ∈ cs, GoodTree c) (h : reorderItems nm attrs cs = .ok items) :
    ∀ x ∈ items, GoodTree x := by
  unfold reorderItems at h
  split at h
  · cases hf : cs.find? (isNamed "templateparamlist") with
    | none => rw [hf] at h; exact reorderEnum_good hcs h
    | some tnode =>
        rw [hf] at h
        simp only [Except.ok.injEq] at h
        subst h
        intro x hx
        rcases List.mem_cons.mp hx with hx | hx
        · subst hx
          exact hcs _ (List.mem_of_find?_eq_some hf)
        · exact hcs _ (List.mem_filter.mp hx).1
  · exact reorderEnum_good hcs h

theorem excStep_ctx {n fuel : Nat}
    (IH : ∀ (x : Node) (c : List String) (r : String × List String),
      GoodTree x → convert_to_rst n x c = .ok r → r.2 = c)
    {st2 r : String × List String} {y : Node}
    (hy : GoodTree y)
    (h : excStep (fun a b => convert_to_rst n a b) fuel st2 y = .ok r) :
    r.2 = st2.2 := by
  unfold excStep at h
  rcases bind_ok_inv h with ⟨pn?, _, h⟩
  cases pn? with
  | none => simp at h
  | some pn =>
      simp only at h
      rcases bind_ok_inv h with ⟨exc, _, h⟩
      by_cases hne : exc ≠ "(None)"
      · rw [if_pos hne] at h
        rcases bind_ok_inv h with ⟨pd?, hpd, h⟩
        cases pd? with
        | none => simp at h
        | some pd =>
            simp only at h
            rcases bind_ok_inv h with ⟨rc, hrc, h⟩
            injection h with hr
            subst hr
            simpa using IH pd st2.2 rc (findDesc_good hy hpd) hrc
      · rw [if_neg hne] at h
        injection h with hr
        subst hr
        rfl

theorem excLoop_ctx {n fuel : Nat}
    (IH : ∀ (x : Node) (c : List String) (r : String × List String),
      GoodTree x → convert_to_rst n x c = .ok r → r.2 = c) :
    ∀ (items : List Node) (st2 r : String × List String),
      (∀ y ∈ items, GoodTree y) →
      items.foldlM (excStep (fun a b => convert_to_rst n a b) fuel) st2 = .ok r →
      r.2 = st2.2 := by
  intro items
  induction items with
  | nil =>
      intro st2 r _ h
      simp only [List.foldlM] at h
      injection h with hr
      subst hr
      rfl
  | cons y rest ihl =>
      intro st2 r hg h
      simp only [List.foldlM] at h
      rcases bind_ok_inv h with ⟨st3, hst3, h⟩
      have h1 : st3.2 = st2.2 :=
        excStep_ctx IH (hg y (List.mem_cons_self _ _)) hst3
      have h2 : r.2 = st3.2 :=
        ihl st3 r (fun v hv => hg v (List.mem_cons_of_mem _ hv)) h
      rw [h2, h1]

theorem convStep_ctx {n fuel : Nat}
    (IH : ∀ (x : Node) (c : List String) (r : String × List String),
      GoodTree x → convert_to_rst n x c = .ok r → r.2 = c)
    {st r : String × List String} {x : Node}
    (hx : GoodTree x)
    (h : convStep (fun a b => convert_to_rst n a b) fuel st x = .ok r) :
    r.2 = st.2 := by
  cases x with
  | txt s0 =>
      simp only [convStep] at h
      injection h with hr
      subst hr
      rfl
  | elem nm attrs cs =>
      simp only [convStep] at h
      by_cases h1 : st.2.contains "enum" = true ∧ nm = "name"
      · rw [if_pos h1] at h
        rcases bind_ok_inv h with ⟨t0, _, h⟩
        injection h with hr
        subst hr
        rfl
      · rw [if_neg h1] at h
        by_cases h2 : st.2.contains "enum" = true ∧ nm = "enumvalue"
        · rw [if_pos h2] at h
          rcases bind_ok_inv h with ⟨rc, hrc, h⟩
          injection h with hr
          subst hr
          simpa using IH _ _ rc hx hrc
        · rw [if_neg h2] at h
          by_cases h3 : nm = "briefdescription"
          · rw [if_pos h3] at h
            rcases bind_ok_inv h with ⟨rc, hrc, h⟩
            injection h with hr
            subst hr
            simpa using IH _ _ rc hx hrc
          · rw [if_neg h3] at h
            by_cases h4 : nm = "detaileddescription"
            · rw [if_pos h4] at h
              rcases bind_ok_inv h with ⟨rc, hrc, h⟩
              injection h with hr
              subst hr
              simpa using IH _ _ rc hx hrc
            · rw [if_neg h4] at h
              by_cases h5 : nm = "templateparamlist"
              · rw [if_pos h5] at h
                rcases bind_ok_inv h with ⟨ps, _, h⟩
                rcases bind_ok_inv h with ⟨params, _, h⟩
                injection h with hr
                subst hr
                rfl
              · rw [if_neg h5] at h
                by_cases h6 : nm = "computeroutput"
                · rw [if_pos h6] at h
                  rcases bind_ok_inv h with ⟨t0, _, h⟩
                  split at h <;> (injection h with hr; subst hr; rfl)
                · rw [if_neg h6] at h
                  by_cases h7 : nm = "formula"
                  · rw [if_pos h7] at h
                    rcases bind_ok_inv h with ⟨t0, _, h⟩
                    injection h with hr
                    subst hr
                    rfl
                  · rw [if_neg h7] at h
                    by_cases h8 : nm = "title"
                    · rw [if_pos h8] at h
                      rcases bind_ok_inv h with ⟨t0, _, h⟩
                      injection h with hr
                      subst hr
                      rfl
                    · rw [if_neg h8] at h
                      by_cases h9 : nm = "para"
                      · rw [if_pos h9] at h
                        rcases bind_ok_inv h with ⟨rc, hrc, h⟩
                        injection h with hr
                        subst hr
                        simpa using IH _ _ rc hx hrc
                      · rw [if_neg h9] at h
                        by_cases h10 : nm = "simplesect"
                        · rw [if_pos h10] at h
                          cases hat : attrGet attrs "kind" with
                          | none => rw [hat] at h; simp at h
                          | some k =>
                              rw [hat] at h
                              simp only at h
                              by_cases hk1 : k = "par"
                              · rw [if_pos hk1] at h
                                rcases bind_ok_inv h with ⟨rc, hrc, h⟩
                                injection h with hr
                                subst hr
                                simpa using IH _ _ rc hx hrc
                              · rw [if_neg hk1] at h
                                by_cases hk2 : k = "see"
                                · rw [if_pos hk2] at h
                                  rcases bind_ok_inv h with ⟨rc, hrc, h⟩
                                  injection h with hr
                                  subst hr
                                  simpa using IH _ _ rc hx hrc
                                · rw [if_neg hk2] at h
                                  injection h with hr
                                  subst hr
                                  rfl
                        · rw [if_neg h10] at h
                          by_cases h11 : nm = "parameterlist"
                          · rw [if_pos h11] at h
                            cases hat : attrGet attrs "kind" with
                            | none => rw [hat] at h; simp at h
                            | some k =>
                                rw [hat] at h
                                simp only at h
                                by_cases hk1 : k = "exception"
                                · rw [if_pos hk1] at h
                                  rcases bind_ok_inv h with ⟨items, hitems, h⟩
                                  have hgo : ∀ y ∈ items, GoodTree y := by
                                    cases hfa : findAllW "parameteritem" fuel cs with
                                    | none =>
                                        rw [hfa] at hitems
                                        simp [liftOpt] at hitems
                                    | some l1 =>
                                        rw [hfa] at hitems
                                        simp only [liftOpt, Except.ok.injEq] at hitems
                                        subst hitems
                                        exact findAllW_good fuel cs l1
                                          (goodTree_children hx) hfa
                                  exact excLoop_ctx IH items _ r hgo h
                                · rw [if_neg hk1] at h
                                  injection h with hr
                                  subst hr
                                  rfl
                          · rw [if_neg h11] at h
                            by_cases h12 : nm = "ref"
                            · rw [if_pos h12] at h
                              rcases bind_ok_inv h with ⟨t0, _, h⟩
                              injection h with hr
                              subst hr
                              rfl
                            · rw [if_neg h12] at h
                              by_cases h13 : nm = "emphasis"
                              · rw [if_pos h13] at h
                                rcases bind_ok_inv h with ⟨t0, _, h⟩
                                injection h with hr
                                subst hr
                                rfl
                              · rw [if_neg h13] at h
                                by_cases h14 : nm = "bold"
                                · rw [if_pos h14] at h
                                  rcases bind_ok_inv h with ⟨t0, _, h⟩
                                  injection h with hr
                                  subst hr
                                  rfl
                                · rw [if_neg h14] at h
                                  by_cases h15 : nm = "compoundname"
                                  · rw [if_pos h15] at h
                                    rcases bind_ok_inv h with ⟨t0, _, h⟩
                                    injection h with hr
                                    subst hr
                                    rfl
                                  · rw [if_neg h15] at h
                                    by_cases h16 : nm = "ulink"
                                    · rw [if_pos h16] at h
                                      rcases bind_ok_inv h with ⟨t0, _, h⟩
                                      cases hat : attrGet attrs "url" with
                                      | none => rw [hat] at h; simp at h
                                      | some url =>
                                          rw [hat] at h
                                          simp only at h
                                          injection h with hr
                                          subst hr
                                          rfl
                                    · rw [if_neg h16] at h
                                      by_cases h17 : nm = "itemizedlist"
                                      · rw [if_pos h17] at h
                                        rcases bind_ok_inv h with ⟨rc, hrc, h⟩
                                        injection h with hr
                                        subst hr
                                        simpa using IH _ _ rc hx hrc
                                      · rw [if_neg h17] at h
                                        by_cases h18 : nm = "listitem"
                                        · rw [if_pos h18] at h
                                          rcases bind_ok_inv h with ⟨rc, hrc, h⟩
                                          injection h with hr
                                          subst hr
                                          simpa using IH _ _ rc hx hrc
                                        · rw [if_neg h18] at h
                                          by_cases h19 : nm = "programlisting"
                                          · rw [if_pos h19] at h
                                            rcases bind_ok_inv h with ⟨rc, hrc, h⟩
                                            injection h with hr
                                            subst hr
                                            simpa using IH _ _ rc hx hrc
                                          · rw [if_neg h19] at h
                                            by_cases h20 : nm = "codeline"
                                            · rw [if_pos h20] at h
                                              rcases bind_ok_inv h with ⟨rc, hrc, h⟩
                                              injection h with hr
                                              subst hr
                                              simpa using IH _ _ rc hx hrc
                                            · rw [if_neg h20] at h
                                              by_cases h21 : nm = "highlight"
                                              · rw [if_pos h21] at h
                                                rcases bind_ok_inv h with ⟨rc, hrc, h⟩
                                                injection h with hr
                                                subst hr
                                                simpa using IH _ _ rc hx hrc
                                              · rw [if_neg h21] at h
                                                by_cases h22 : nm = "sp"
                                                · rw [if_pos h22] at h
                                                  injection h with hr
                                                  subst hr
                                                  rfl
                                                · rw [if_neg h22] at h
                                                  injection h with hr
                                                  subst hr
                                                  rfl

theorem convLoop_ctx {n : Nat}
    (IH : ∀ (x : Node) (c : List String) (r : String × List String),
      GoodTree x → convert_to_rst n x c = .ok r → r.2 = c) :
    ∀ (items : List Node) (st r : String × List String),
      (∀ y ∈ items, GoodTree y) →
      items.foldlM (convStep (fun a b => convert_to_rst n a b) n) st = .ok r →
      r.2 = st.2 := by
  intro items
  induction items with
  | nil =>
      intro st r _ h
      simp only [List.foldlM] at h
      injection h with hr
      subst hr
      rfl
  | cons y rest ihl =>
      intro st r hg h
      simp only [List.foldlM] at h
      rcases bind_ok_inv h with ⟨st2, hst2, h⟩
      have h1 : st2.2 = st.2 :=
        convStep_ctx IH (hg y (List.mem_cons_self _ _)) hst2
      have h2 : r.2 = st2.2 :=
        ihl st2 r (fun v hv => hg v (List.mem_cons_of_mem _ hv)) h
      rw [h2, h1]

theorem conv_balanced :
    ∀ (n : Nat) (x : Node) (ctx : List String) (r : String × List String),
      GoodTree x → convert_to_rst n x ctx = .ok r → r.2 = ctx := by
  intro n
  induction n with
  | zero =>
      intro x ctx r _ h
      simp [convert_to_rst] at h
  | succ n ih =>
      intro x ctx r hg h
      cases x with
      | txt s => simp [convert_to_rst] at h
      | elem nm attrs cs =>
          simp only [convert_to_rst] at h
          rcases bind_ok_inv h with ⟨items, hitems, h⟩
          rcases bind_ok_inv h with ⟨rc, hrc, h⟩
          have hgo : ∀ y ∈ items, GoodTree y :=
            reorder_good (goodTree_children hg) hitems
          have hctx2 : rc.2 =
              (if attrGet attrs "kind" = some "enum" then "enum" :: nm :: ctx
               else nm :: ctx) :=
            convLoop_ctx ih items _ rc hgo hrc
          have e : (if rc.2.head? = some "enum" then rc.2.tail else rc.2) = nm :: ctx := by
            rw [hctx2]
            by_cases hk : attrGet attrs "kind" = some "enum"
            · rw [if_pos hk]
              simp
            · rw [if_neg hk]
              have hnm : nm ≠ "enum" := by
                rcases goodTree_name hg with hn | hn
                · exact absurd hn hk
                · exact hn
              simp [hnm]
          rw [e] at h
          simp only at h
          injection h with hr
          subst hr
          rfl

/-- C9, counterexample.  The claim asserts that for every documentation
tree every push onto the context stack during a call is matched by a pop
before that call returns.  A call on an element whose tag name is `enum`
(without `kind="enum"`) pushes one entry but pops two: here a call entered
with a one-entry context returns with an empty one. -/
theorem C9_counterexample :
    convert_to_rst 3 (Node.elem "enum" [] []) ["para"] = .ok ("", []) ∧
    ([] : List String) ≠ ["para"] :=
  ⟨by decide, by decide⟩

/-- C9, amended: on every tree in which an element named `enum` carries
`kind="enum"` (in particular on every doxygen documentation tree, which
never uses `enum` as a tag name), the renderer restores the context stack
it was given — every push is matched by a pop — and rendering again from
the returned stack reproduces the same output, so successive top-level
renders of equal trees from the shared (initially empty) stack agree. -/
theorem C9_render_balanced (n : Nat) (x : Node) (ctx : List String)
    (out : String) (ctx2 : List String)
    (hg : GoodTree x)
    (h : convert_to_rst n x ctx = .ok (out, ctx2)) :
    ctx2 = ctx ∧ convert_to_rst n x ctx2 = .ok (out, ctx2) := by
  have hc : ctx2 = ctx := conv_balanced n x ctx (out, ctx2) hg h
  subst hc
  exact ⟨rfl, h⟩

/-- C9, witness: a balanced render of a `para` element from a one-entry
stack returns the same stack, and re-rendering reproduces the output. -/
theorem C9_witness :
    (["x"] : List String) = ["x"] ∧
    convert_to_rst 9 (Node.elem "para" [] [Node.txt "hello"]) ["x"] =
      .ok (" hello", ["x"]) := by
  have hgood : GoodTree (Node.elem "para" [] [Node.txt "hello"]) := by
    refine GoodTree.elem _ _ _ (Or.inr (by decide)) ?_
    intro c hc
    rcases List.mem_singleton.mp hc with rfl
    exact GoodTree.txt _
  exact C9_render_balanced 9 (Node.elem "para" [] [Node.txt "hello"]) ["x"]
    " hello" ["x"] hgood (by decide)

end GenPybind
